import Mathlib

/-!
# Synapse stage of the Zilany-Bruce-Carney (2014) auditory-nerve model

A shallow embedding of `Synapse` (src/model/model_Synapse.c) and of the complex helpers
(src/src/pyzbc2014/model/complex.c).

Modelling conventions.

* A C `double` is an element of a linearly ordered field `α` with a floor function
  (exact arithmetic: `ℚ` for evaluation, `ℝ` for analytic statements).  Rounding, infinities
  and NaN are outside the model: a product or an `exp` that overflows or underflows in C is
  finite and nonzero here, a quotient `x/0` is `0` here and an infinity or NaN in C, and the
  `floor` and `ceil` of lines 89, 91 and 223 are those of the exact argument.
* A C `int` is a mathematical integer (`Int`); signed overflow is undefined in C and is not
  modelled.
* A heap buffer is a total function `Int → α`; `calloc` is the all-zero function.  Every buffer
  is its own address space, so an access beyond the allocated length touches no other buffer.
  The allocated lengths are separate definitions (`len_*`).
* The libm functions `exp`, `log` and `pow` are parameters (`Libm`).
* A local that the C code may read before assigning it (`cf_factor`, `Asp`, `vsat`) takes its
  value from an `Indet` record when no assignment ran.
* Index safety is stated on a log of the indices used by the loops of stages C-F
  (`accesses`), compared with the allocated lengths (`regionLen`); `SynapseChecked` is the
  routine with these lengths enforced.
* The definitions named `*_uniform` are comparison definitions for the approximate
  implementation, not translations of a source function.
-/

namespace PyZBC2014

set_option linter.unusedSectionVars false
set_option linter.unusedVariables false

variable {α : Type} [LinearOrderedField α] [FloorRing α]

/-! ## Buffers and loops -/

/-- Store `v` at index `i` of a buffer: the C statement `buf[i] = v`. -/
def bufSet {β : Type} (buf : Int → β) (i : Int) (v : β) : Int → β :=
  fun j => if j = i then v else buf j

/-- A zero-initialised buffer, as returned by `calloc`. -/
def calloc {β : Type} [Zero β] : Int → β :=
  fun _ => 0

/-- The C loop `for (i = lo; i < hi; ++i) body`, threading the state `s`. -/
def forLoop {σ : Type} (lo hi : Int) (body : Int → σ → σ) (s : σ) : σ :=
  if lo < hi then forLoop (lo + 1) hi body (body lo s) else s
termination_by (hi - lo).toNat
decreasing_by omega

/-- The macro `__max(a,b) (((a) > (b))? (a): (b))`. -/
def cmax (a b : α) : α :=
  if a > b then a else b

/-- The macro `__min(a,b) (((a) < (b))? (a): (b))`. -/
def cmin (a b : α) : α :=
  if a < b then a else b

/-- The libm functions the routine calls. -/
structure Libm (α : Type) where
  exp : α → α
  log : α → α
  pow : α → α → α

/-- Values held by the locals `cf_factor`, `Asp`, `vsat` when read before any assignment. -/
structure Indet (α : Type) where
  cf_factor : α
  Asp : α
  vsat : α

/-! ## Scalars computed before the first loop (lines 89-91, 127-129) -/

/-- Line 89: `int resamp = (int)ceil(1 / (tdres * sampFreq));`. -/
def resamp (tdres sampFreq : α) : Int :=
  Int.ceil (1 / (tdres * sampFreq))

/-- Line 91: `int delaypoint = (int)floor(7500 / (cf / 1e3));`. -/
def delaypoint (cf : α) : Int :=
  Int.floor (7500 / (cf / 1e3))

/-- Line 127: `binwidth = 1/sampFreq;`. -/
def binwidth (sampFreq : α) : α :=
  1 / sampFreq

/-- Line 128: `alpha1 = 2.5e-6*100e3;`. -/
def alpha1 : α := 2.5e-6 * 100e3

/-- Line 128: `beta1 = 5e-4;`. -/
def beta1 : α := 5e-4

/-- Line 129: `alpha2 = 1e-2*100e3;`. -/
def alpha2 : α := 1e-2 * 100e3

/-- Line 129: `beta2 = 1e-1;`. -/
def beta2 : α := 1e-1

/-! ## Allocated lengths (lines 107-122, 211) -/

/-- Line 107: `calloc((long) ceil(totalstim*nrep), ...)`, the length of `exponOut`. -/
def len_exponOut (totalstim nrep : Int) : Int :=
  Int.ceil (((totalstim * nrep : Int) : α))

/-- Line 108: the length of `powerLawIn`. -/
def len_powerLawIn (totalstim nrep delaypoint : Int) : Int :=
  Int.ceil (((totalstim * nrep + 3 * delaypoint : Int) : α))

/-- Line 112: the length of `TmpSyn`. -/
def len_TmpSyn (totalstim nrep delaypoint : Int) : Int :=
  Int.ceil (((totalstim * nrep + 2 * delaypoint : Int) : α))

/-- Lines 109-111, 114-122, 211: the common length of `sout1`, `sout2`, `synSampOut`,
`m1..m5`, `n1..n3` and `sampIHC`. -/
def len_samp (totalstim nrep delaypoint : Int) (tdres sampFreq : α) : Int :=
  Int.ceil (((totalstim * nrep + 2 * delaypoint : Int) : α) * tdres * sampFreq)

/-! ## Stage A: the double-exponential adaptation parameters (lines 134-180) -/

/-- Lines 134-136: the three guarded assignments to `cf_factor`; `none` when none ran. -/
def cf_factor_sel (lm : Libm α) (spont cf : α) : Option α :=
  let c : Option α := none
  let c := if spont = 100 then some (cmin 800 (lm.pow 10 (0.29 * cf / 1e3 + 0.7))) else c
  let c := if spont = 4 then some (cmin 50 (2.5e-4 * cf * 4 + 0.2)) else c
  let c := if spont = 0.1 then some (cmin 1.0 (2.5e-4 * cf * 0.1 + 0.15)) else c
  c

/-- Lines 143-144: the two guarded assignments to `Asp`; `none` when none ran. -/
def Asp_sel (spont implnt : α) : Option α :=
  let a : Option α := none
  let a := if implnt = 1 then some (spont * 3.0) else a
  let a := if implnt = 0 then some (spont * 2.75) else a
  a

/-- The scalars of stage A that later stages read. -/
structure AdaptParams (α : Type) where
  cf_factor : α
  PImax : α
  kslope : α
  Ass : α
  Asp : α
  Aon : α
  AR : α
  AST : α
  Prest : α
  CG : α
  VI : α
  PL : α
  PG : α
  VL : α
  CI : α
  CL : α
  vsat : α
  synstrength : α
  synslope : α

/-- Lines 134-180 of `Synapse`. -/
def stageA (lm : Libm α) (ind : Indet α) (cf spont implnt : α) : AdaptParams α :=
  let cf_factor := (cf_factor_sel lm spont cf).getD ind.cf_factor
  let PImax : α := 0.6
  let kslope := (1 + 50.0) / (5 + 50.0) * cf_factor * 20.0 * PImax
  let Ass := 800 * (1 + cf / 100e3)
  let Asp := (Asp_sel spont implnt).getD ind.Asp
  let TauR : α := 2e-3
  let TauST : α := 60e-3
  let Ar_Ast : α := 6
  let PTS : α := 3
  let Aon := PTS * Ass
  let AR := (Aon - Ass) * Ar_Ast / (1 + Ar_Ast)
  let AST := Aon - Ass - AR
  let Prest := PImax / Aon * Asp
  let CG := (Asp * (Aon - Asp)) / (Aon * Prest * (1 - Asp / Ass))
  let gamma1 := CG / Asp
  let gamma2 := CG / Ass
  let k1 := -1 / TauR
  let k2 := -1 / TauST
  let VI0 := (1 - PImax / Prest) /
    (gamma1 * (AR * (k1 - k2) / CG / PImax + k2 / Prest / gamma1 - k2 / PImax / gamma2))
  let VI1 := (1 - PImax / Prest) /
    (gamma1 * (AST * (k2 - k1) / CG / PImax + k1 / Prest / gamma1 - k1 / PImax / gamma2))
  let VI := (VI0 + VI1) / 2
  let alpha := gamma2 / k1 / k2
  let beta := -(k1 + k2) * alpha
  let theta1 := alpha * PImax / VI
  let theta2 := VI / PImax
  let theta3 := gamma2 - 1 / PImax
  let PL := ((beta - theta2 * theta3) / theta1 - 1) * PImax
  let PG := 1 / (theta3 - 1 / PL)
  let VL := theta1 * PL * PG
  let CI := Asp / Prest
  let CL := CI * (Prest + PL) / PL
  let vsat := if kslope ≥ 0 then kslope + Prest else ind.vsat
  let tmpst := lm.log 2 * vsat / Prest
  let synstrength := if tmpst < 400 then lm.log (lm.exp tmpst - 1) else tmpst
  let synslope := Prest / lm.log 2 * synstrength
  { cf_factor := cf_factor, PImax := PImax, kslope := kslope, Ass := Ass, Asp := Asp,
    Aon := Aon, AR := AR, AST := AST, Prest := Prest, CG := CG, VI := VI, PL := PL, PG := PG,
    VL := VL, CI := CI, CL := CL, vsat := vsat, synstrength := synstrength,
    synslope := synslope }

/-! ## Stage B: forward-Euler integration of the two pools (lines 182-200) -/

/-- The locals that the stage B loop carries from one iteration to the next. -/
structure ExpState (α : Type) where
  CI : α
  CL : α
  exponOut : Int → α
  k : Int

/-- Lines 185-187: the release permeability `PPI` for the input sample `x = ihcout[indx]`. -/
def PPI_of (lm : Libm α) (synstrength synslope x : α) : α :=
  let tmp := synstrength * x
  let tmp := if tmp < 400 then lm.log (1 + lm.exp tmp) else tmp
  synslope / synstrength * tmp

/-- Lines 185-199: one iteration of the stage B loop. -/
def stageBBody (lm : Libm α) (p : AdaptParams α) (ihcout : Int → α) (tdres : α)
    (indx : Int) (s : ExpState α) : ExpState α :=
  let PPI := PPI_of lm p.synstrength p.synslope (ihcout indx)
  let CIlast := s.CI
  let CI := s.CI + (tdres / p.VI) * (-PPI * s.CI + p.PL * (s.CL - s.CI))
  let CL := s.CL + (tdres / p.VL) * (-p.PL * (s.CL - CIlast) + p.PG * (p.CG - s.CL))
  let temp := 1 / p.PG + 1 / p.PL + 1 / PPI
  let CI2 := if CI < 0 then p.CG / (PPI * temp) else CI
  let CL2 := if CI < 0 then CI2 * (PPI + p.PL) / p.PL else CL
  { CI := CI2, CL := CL2, exponOut := bufSet s.exponOut s.k (CI2 * PPI), k := s.k + 1 }

/-- Lines 182-200: the stage B loop, started from the rest state of stage A. -/
def stageB (lm : Libm α) (p : AdaptParams α) (ihcout : Int → α) (tdres : α)
    (totalstim nrep : Int) : ExpState α :=
  forLoop 0 (totalstim * nrep) (stageBBody lm p ihcout tdres)
    { CI := p.CI, CL := p.CL, exponOut := calloc, k := 0 }

/-! ## Stage C: delay padding (lines 202-207) -/

/-- Lines 202-207: the three loops that fill `powerLawIn`. -/
def stageC (exponOut : Int → α) (totalstim nrep delaypoint : Int)
    (powerLawIn : Int → α) : Int → α :=
  let p1 := forLoop 0 delaypoint (fun k p => bufSet p k (exponOut 0)) powerLawIn
  let p2 := forLoop delaypoint (totalstim * nrep + delaypoint)
    (fun k p => bufSet p k (exponOut (k - delaypoint))) p1
  forLoop (totalstim * nrep + delaypoint) (totalstim * nrep + 3 * delaypoint)
    (fun k p => bufSet p k (p (k - 1))) p2

/-! ## Stage D: taking every tenth sample (lines 209-215) -/

/-- Lines 212-215: `for (int i=0; i < hi; i=i+10) { idx_down = (int) i/10;
sampIHC[idx_down] = powerLawIn[i]; }`, entered with the loop variable equal to `i`. -/
def stageDLoop (hi : Int) (powerLawIn : Int → α) (i : Int) (sampIHC : Int → α) : Int → α :=
  if i < hi then
    let idx_down := Int.tdiv i 10
    stageDLoop hi powerLawIn (i + 10) (bufSet sampIHC idx_down (powerLawIn i))
  else sampIHC
termination_by (hi - i).toNat
decreasing_by omega

/-- Lines 210-215: the decimation of the first `totalstim*nrep+2*delaypoint` samples. -/
def stageD (powerLawIn : Int → α) (totalstim nrep delaypoint : Int) : Int → α :=
  stageDLoop (totalstim * nrep + 2 * delaypoint) powerLawIn 0 calloc

/-! ## Stage E: running power-law adaptation (lines 221-287) -/

/-- The buffers and locals that the stage E loop carries from one iteration to the next. -/
structure PLState (α : Type) where
  sout1 : Int → α
  sout2 : Int → α
  synSampOut : Int → α
  m1 : Int → α
  m2 : Int → α
  m3 : Int → α
  m4 : Int → α
  m5 : Int → α
  n1 : Int → α
  n2 : Int → α
  n3 : Int → α
  I1 : α
  I2 : α
  k : Int

/-- Lines 232-237: `I1 = 0; I2 = 0;` followed by the inner loop over `j`, as the pair
`(I1, I2)`. -/
def exactSums (sout1 sout2 : Int → α) (binwidth : α) (k : Int) : α × α :=
  forLoop 0 (k + 1)
    (fun j (I : α × α) =>
      (I.1 + (sout1 j) * binwidth / (((k - j : Int) : α) * binwidth + beta1),
       I.2 + (sout2 j) * binwidth / (((k - j : Int) : α) * binwidth + beta2)))
    (0, 0)

/-- Lines 242-258: the three-section cascade `n1, n2, n3` driven by `sout2`. -/
def approxN (s : PLState α) : PLState α :=
  let k := s.k
  if k = 0 then
    let n1 := bufSet s.n1 k (1.0e-3 * s.sout2 k)
    let n2 := bufSet s.n2 k (n1 k)
    let n3 := bufSet s.n3 0 (n2 k)
    { s with n1 := n1, n2 := n2, n3 := n3 }
  else if k = 1 then
    let n1 := bufSet s.n1 k (1.992127932802320 * s.n1 (k - 1)
      + 1.0e-3 * (s.sout2 k - 0.994466986569624 * s.sout2 (k - 1)))
    let n2 := bufSet s.n2 k (1.999195329360981 * s.n2 (k - 1) + n1 k
      - 1.997855276593802 * n1 (k - 1))
    let n3 := bufSet s.n3 k (-0.798261718183851 * s.n3 (k - 1) + n2 k
      + 0.798261718184977 * n2 (k - 1))
    { s with n1 := n1, n2 := n2, n3 := n3 }
  else
    let n1 := bufSet s.n1 k (1.992127932802320 * s.n1 (k - 1)
      - 0.992140616993846 * s.n1 (k - 2)
      + 1.0e-3 * (s.sout2 k - 0.994466986569624 * s.sout2 (k - 1)
        + 0.000000000002347 * s.sout2 (k - 2)))
    let n2 := bufSet s.n2 k (1.999195329360981 * s.n2 (k - 1)
      - 0.999195402928777 * s.n2 (k - 2) + n1 k
      - 1.997855276593802 * n1 (k - 1) + 0.997855827934345 * n1 (k - 2))
    let n3 := bufSet s.n3 k (-0.798261718183851 * s.n3 (k - 1)
      - 0.199131619873480 * s.n3 (k - 2) + n2 k
      + 0.798261718184977 * n2 (k - 1) + 0.199131619874064 * n2 (k - 2))
    { s with n1 := n1, n2 := n2, n3 := n3 }

/-- Lines 261-282: the five-section cascade `m1 .. m5` driven by `sout1`. -/
def approxM (s : PLState α) : PLState α :=
  let k := s.k
  if k = 0 then
    let m1 := bufSet s.m1 k (0.2 * s.sout1 k)
    let m2 := bufSet s.m2 k (m1 k)
    let m3 := bufSet s.m3 k (m2 k)
    let m4 := bufSet s.m4 k (m3 k)
    let m5 := bufSet s.m5 k (m4 k)
    { s with m1 := m1, m2 := m2, m3 := m3, m4 := m4, m5 := m5 }
  else if k = 1 then
    let m1 := bufSet s.m1 k (0.491115852967412 * s.m1 (k - 1)
      + 0.2 * (s.sout1 k - 0.173492003319319 * s.sout1 (k - 1)))
    let m2 := bufSet s.m2 k (1.084520302502860 * s.m2 (k - 1) + m1 k
      - 0.803462163297112 * m1 (k - 1))
    let m3 := bufSet s.m3 k (1.588427084535629 * s.m3 (k - 1) + m2 k
      - 1.416084732997016 * m2 (k - 1))
    let m4 := bufSet s.m4 k (1.886287488516458 * s.m4 (k - 1) + m3 k
      - 1.830362725074550 * m3 (k - 1))
    let m5 := bufSet s.m5 k (1.989549282714008 * s.m5 (k - 1) + m4 k
      - 1.983165053215032 * m4 (k - 1))
    { s with m1 := m1, m2 := m2, m3 := m3, m4 := m4, m5 := m5 }
  else
    let m1 := bufSet s.m1 k (0.491115852967412 * s.m1 (k - 1)
      - 0.055050209956838 * s.m1 (k - 2)
      + 0.2 * (s.sout1 k - 0.173492003319319 * s.sout1 (k - 1)
        + 0.000000172983796 * s.sout1 (k - 2)))
    let m2 := bufSet s.m2 k (1.084520302502860 * s.m2 (k - 1)
      - 0.288760329320566 * s.m2 (k - 2) + m1 k
      - 0.803462163297112 * m1 (k - 1) + 0.154962026341513 * m1 (k - 2))
    let m3 := bufSet s.m3 k (1.588427084535629 * s.m3 (k - 1)
      - 0.628138993662508 * s.m3 (k - 2) + m2 k
      - 1.416084732997016 * m2 (k - 1) + 0.496615555008723 * m2 (k - 2))
    let m4 := bufSet s.m4 k (1.886287488516458 * s.m4 (k - 1)
      - 0.888972875389923 * s.m4 (k - 2) + m3 k
      - 1.830362725074550 * m3 (k - 1) + 0.836399964176882 * m3 (k - 2))
    let m5 := bufSet s.m5 k (1.989549282714008 * s.m5 (k - 1)
      - 0.989558985673023 * s.m5 (k - 2) + m4 k
      - 1.983165053215032 * m4 (k - 1) + 0.983193027347456 * m4 (k - 2))
    { s with m1 := m1, m2 := m2, m3 := m3, m4 := m4, m5 := m5 }

/-- Lines 230-238: the branch `if (implnt == 1)`. -/
def exactStep (binwidth : α) (s : PLState α) : PLState α :=
  let I := exactSums s.sout1 s.sout2 binwidth s.k
  { s with I1 := I.1, I2 := I.2 }

/-- Lines 240-284: the branch `if (implnt==0)`. -/
def approxStep (s : PLState α) : PLState α :=
  let s := approxN s
  let s := { s with I2 := s.n3 s.k }
  let s := approxM s
  { s with I1 := s.m5 s.k }

/-- Lines 227-286: one iteration of the stage E loop. -/
def stageEBody (sampIHC randNums : Int → α) (implnt sampFreq : α)
    (indx : Int) (s : PLState α) : PLState α :=
  let s := { s with
    sout1 := bufSet s.sout1 s.k (cmax 0 (sampIHC indx + randNums indx - alpha1 * s.I1)) }
  let s := { s with sout2 := bufSet s.sout2 s.k (cmax 0 (sampIHC indx - alpha2 * s.I2)) }
  let s := if implnt = 1 then exactStep (binwidth sampFreq) s else s
  let s := if implnt = 0 then approxStep s else s
  let s := { s with synSampOut := bufSet s.synSampOut s.k (s.sout1 s.k + s.sout2 s.k) }
  { s with k := s.k + 1 }

/-- The state on entry to the stage E loop: `calloc`ed buffers, `I1 = 0`, `I2 = 0`
(lines 128-129) and `k = 0` (line 221). -/
def stageEInit : PLState α :=
  { sout1 := calloc, sout2 := calloc, synSampOut := calloc, m1 := calloc, m2 := calloc,
    m3 := calloc, m4 := calloc, m5 := calloc, n1 := calloc, n2 := calloc, n3 := calloc,
    I1 := 0, I2 := 0, k := 0 }

/-- The state after the iterations `indx = 0, .., n-1` of the stage E loop. -/
def stageESteps (sampIHC randNums : Int → α) (implnt sampFreq : α) (n : Int) : PLState α :=
  forLoop 0 n (stageEBody sampIHC randNums implnt sampFreq) stageEInit

/-- Lines 223-224: the bound of the stage E loop,
`floor((totalstim * nrep + 2 * delaypoint) * tdres * sampFreq)`. -/
def stageEBound (totalstim nrep delaypoint : Int) (tdres sampFreq : α) : Int :=
  Int.floor (((totalstim * nrep + 2 * delaypoint : Int) : α) * tdres * sampFreq)

/-- Lines 221-287: the whole stage E loop. -/
def stageE (sampIHC randNums : Int → α) (implnt sampFreq tdres : α)
    (totalstim nrep delaypoint : Int) : PLState α :=
  stageESteps sampIHC randNums implnt sampFreq
    (stageEBound totalstim nrep delaypoint tdres sampFreq)

/-! ## Stage F: linear interpolation back to the high rate, and trimming (lines 294-303) -/

/-- Lines 296-300: one iteration of the outer loop, for the decimated index `z`. -/
def upsampleBody (synSampOut : Int → α) (resamp : Int) (z : Int) (TmpSyn : Int → α) :
    Int → α :=
  let incr := (synSampOut (z + 1) - synSampOut z) / (resamp : α)
  forLoop 0 resamp (fun b T => bufSet T (z * resamp + b) (synSampOut z + (b : α) * incr)) TmpSyn

/-- Lines 294-301: the loop `for(z=0; z<k-1; ++z)`. -/
def upsample (synSampOut : Int → α) (k resamp : Int) (TmpSyn : Int → α) : Int → α :=
  forLoop 0 (k - 1) (upsampleBody synSampOut resamp) TmpSyn

/-- Lines 302-303: `for (i=0;i<totalstim*nrep;++i) synouttmp[i] = TmpSyn[i+delaypoint];`. -/
def trim (TmpSyn : Int → α) (totalstim nrep delaypoint : Int) (synouttmp : Int → α) :
    Int → α :=
  forLoop 0 (totalstim * nrep) (fun i out => bufSet out i (TmpSyn (i + delaypoint))) synouttmp

/-- Lines 294-303: stage F, from the decimated samples and the final value of `k` to the
output buffer. -/
def stageF (synSampOut : Int → α) (k resamp totalstim nrep delaypoint : Int)
    (synouttmp : Int → α) : Int → α :=
  trim (upsample synSampOut k resamp calloc) totalstim nrep delaypoint synouttmp

/-- The value that lines 296-299 store at index `j` of `TmpSyn` when `j` is reached:
`synSampOut[z] + b*incr` with `z = j / resamp`, `b = j % resamp`. -/
def interp (synSampOut : Int → α) (resamp : Int) (j : Int) : α :=
  synSampOut (j / resamp)
    + ((j % resamp : Int) : α)
      * ((synSampOut (j / resamp + 1) - synSampOut (j / resamp)) / (resamp : α))

/-! ## The routine -/

/-- Line 306: `return((long) ceil(totalstim*nrep));`, converted to the `double` result. -/
def returnValue (totalstim nrep : Int) : α :=
  ((Int.ceil (((totalstim * nrep : Int) : α)) : Int) : α)

/-- `Synapse` (lines 75-307): the final contents of `synouttmp` and the returned value.
The last argument is the content of the caller's output buffer on entry. -/
def Synapse (lm : Libm α) (ind : Indet α) (ihcout randNums : Int → α) (tdres cf : α)
    (totalstim nrep : Int) (spont implnt sampFreq : α) (synouttmp : Int → α) :
    (Int → α) × α :=
  let resamp := resamp tdres sampFreq
  let delaypoint := delaypoint cf
  let p := stageA lm ind cf spont implnt
  let sB := stageB lm p ihcout tdres totalstim nrep
  let powerLawIn := stageC sB.exponOut totalstim nrep delaypoint calloc
  let sampIHC := stageD powerLawIn totalstim nrep delaypoint
  let sE := stageE sampIHC randNums implnt sampFreq tdres totalstim nrep delaypoint
  (stageF sE.synSampOut sE.k resamp totalstim nrep delaypoint synouttmp,
   returnValue totalstim nrep)

/-! ## The complex helpers (complex.c) -/

/-- The C struct `COMPLEX` with its fields `x` (real part) and `y` (imaginary part). -/
structure COMPLEX (α : Type) where
  x : α
  y : α

/-- The function `compdiv` of complex.c. -/
def compdiv (ne de : COMPLEX α) : COMPLEX α :=
  let d := de.x * de.x + de.y * de.y
  { x := (ne.x * de.x + ne.y * de.y) / d, y := (ne.y * de.x - ne.x * de.y) / d }

/-- The function `compmult` of complex.c. -/
def compmult (scalar : α) (compnum : COMPLEX α) : COMPLEX α :=
  { x := scalar * compnum.x, y := scalar * compnum.y }

/-- The function `compprod` of complex.c. -/
def compprod (compnum1 compnum2 : COMPLEX α) : COMPLEX α :=
  { x := (compnum1.x * compnum2.x) - (compnum1.y * compnum2.y),
    y := (compnum1.x * compnum2.y) + (compnum1.y * compnum2.x) }

/-- The function `comp2sum` of complex.c. -/
def comp2sum (summand1 summand2 : COMPLEX α) : COMPLEX α :=
  { x := summand1.x + summand2.x, y := summand1.y + summand2.y }

/-- The function `compsubtract` of complex.c. -/
def compsubtract (complexA complexB : COMPLEX α) : COMPLEX α :=
  { x := complexA.x - complexB.x, y := complexA.y - complexB.y }

/-- The function `compconj` of complex.c. -/
def compconj (complexA : COMPLEX α) : COMPLEX α :=
  { x := complexA.x, y := -complexA.y }

/-! ## The approximate implementation as a uniform cascade (comparison definitions)

These definitions do not translate a source function.  They state the reading of lines
240-284 that the bootstrap property compares the source with: the recursion of the `else`
branches (lines 255-257 and 277-281) used at every `k`, with every sample at a negative index
taken as 0. -/

/-- A buffer read in which every sample at a negative index is taken as 0. -/
def atz (buf : Int → α) (i : Int) : α :=
  if i < 0 then 0 else buf i

/-- The three sections `n1, n2, n3`: the recursion of lines 255-257 at every `k`, started
from zero history. -/
def approxN_uniform (s : PLState α) : PLState α :=
  let k := s.k
  let n1 := bufSet s.n1 k (1.992127932802320 * atz s.n1 (k - 1)
    - 0.992140616993846 * atz s.n1 (k - 2)
    + 1.0e-3 * (s.sout2 k - 0.994466986569624 * atz s.sout2 (k - 1)
      + 0.000000000002347 * atz s.sout2 (k - 2)))
  let n2 := bufSet s.n2 k (1.999195329360981 * atz s.n2 (k - 1)
    - 0.999195402928777 * atz s.n2 (k - 2) + n1 k
    - 1.997855276593802 * atz n1 (k - 1) + 0.997855827934345 * atz n1 (k - 2))
  let n3 := bufSet s.n3 k (-0.798261718183851 * atz s.n3 (k - 1)
    - 0.199131619873480 * atz s.n3 (k - 2) + n2 k
    + 0.798261718184977 * atz n2 (k - 1) + 0.199131619874064 * atz n2 (k - 2))
  { s with n1 := n1, n2 := n2, n3 := n3 }

/-- The five sections `m1 .. m5`: the recursion of lines 277-281 at every `k`, started from
zero history. -/
def approxM_uniform (s : PLState α) : PLState α :=
  let k := s.k
  let m1 := bufSet s.m1 k (0.491115852967412 * atz s.m1 (k - 1)
    - 0.055050209956838 * atz s.m1 (k - 2)
    + 0.2 * (s.sout1 k - 0.173492003319319 * atz s.sout1 (k - 1)
      + 0.000000172983796 * atz s.sout1 (k - 2)))
  let m2 := bufSet s.m2 k (1.084520302502860 * atz s.m2 (k - 1)
    - 0.288760329320566 * atz s.m2 (k - 2) + m1 k
    - 0.803462163297112 * atz m1 (k - 1) + 0.154962026341513 * atz m1 (k - 2))
  let m3 := bufSet s.m3 k (1.588427084535629 * atz s.m3 (k - 1)
    - 0.628138993662508 * atz s.m3 (k - 2) + m2 k
    - 1.416084732997016 * atz m2 (k - 1) + 0.496615555008723 * atz m2 (k - 2))
  let m4 := bufSet s.m4 k (1.886287488516458 * atz s.m4 (k - 1)
    - 0.888972875389923 * atz s.m4 (k - 2) + m3 k
    - 1.830362725074550 * atz m3 (k - 1) + 0.836399964176882 * atz m3 (k - 2))
  let m5 := bufSet s.m5 k (1.989549282714008 * atz s.m5 (k - 1)
    - 0.989558985673023 * atz s.m5 (k - 2) + m4 k
    - 1.983165053215032 * atz m4 (k - 1) + 0.983193027347456 * atz m4 (k - 2))
  { s with m1 := m1, m2 := m2, m3 := m3, m4 := m4, m5 := m5 }

/-- The approximate branch with the uniform cascades: `I2 = n3[k]`, `I1 = m5[k]`. -/
def approxStep_uniform (s : PLState α) : PLState α :=
  let s := approxN_uniform s
  let s := { s with I2 := s.n3 s.k }
  let s := approxM_uniform s
  { s with I1 := s.m5 s.k }

/-- One iteration of the stage E loop with the uniform cascades as the feedback. -/
def stageEBody_uniform (sampIHC randNums : Int → α) (indx : Int) (s : PLState α) :
    PLState α :=
  let s := { s with
    sout1 := bufSet s.sout1 s.k (cmax 0 (sampIHC indx + randNums indx - alpha1 * s.I1)) }
  let s := { s with sout2 := bufSet s.sout2 s.k (cmax 0 (sampIHC indx - alpha2 * s.I2)) }
  let s := approxStep_uniform s
  let s := { s with synSampOut := bufSet s.synSampOut s.k (s.sout1 s.k + s.sout2 s.k) }
  { s with k := s.k + 1 }

/-- The state after `n` iterations of the stage E loop with the uniform cascades. -/
def stageESteps_uniform (sampIHC randNums : Int → α) (n : Int) : PLState α :=
  forLoop 0 n (stageEBody_uniform sampIHC randNums) stageEInit

/-! ## Buffer accesses of stages C-F

The buffers of the model carry no length, so the indices that the loops of stages C-F use are
logged separately, loop by loop, and compared with the allocated lengths. -/

/-- The heap buffers of `Synapse`, grouped by allocated length: `samp` stands for the
buffers of length `len_samp` (`sout1`, `sout2`, `synSampOut`, `m1..m5`, `n1..n3`,
`sampIHC`). -/
inductive Region where
  | exponOut : Region
  | powerLawIn : Region
  | TmpSyn : Region
  | samp : Region
  deriving DecidableEq

/-- The allocated length of each group of buffers (lines 107-122, 211). -/
def regionLen (totalstim nrep delaypoint : Int) (tdres sampFreq : α) : Region → Int
  | Region.exponOut => len_exponOut (α := α) totalstim nrep
  | Region.powerLawIn => len_powerLawIn (α := α) totalstim nrep delaypoint
  | Region.TmpSyn => len_TmpSyn (α := α) totalstim nrep delaypoint
  | Region.samp => len_samp totalstim nrep delaypoint tdres sampFreq

/-- An access `(buffer, index)` is inside the buffer. -/
def inBounds (len : Region → Int) (a : Region × Int) : Prop :=
  0 ≤ a.2 ∧ a.2 < len a.1

/-- The accesses of a loop `for (i = lo; i < hi; ++i)` whose iteration `i` makes the
accesses `f i`. -/
def logLoop (lo hi : Int) (f : Int → List (Region × Int)) : List (Region × Int) :=
  forLoop lo hi (fun i l => l ++ f i) []

/-- Lines 202-207: the accesses of the three loops of stage C. -/
def accessC (totalstim nrep delaypoint : Int) : List (Region × Int) :=
  logLoop 0 delaypoint (fun k => [(Region.powerLawIn, k), (Region.exponOut, 0)])
  ++ logLoop delaypoint (totalstim * nrep + delaypoint)
      (fun k => [(Region.powerLawIn, k), (Region.exponOut, k - delaypoint)])
  ++ logLoop (totalstim * nrep + delaypoint) (totalstim * nrep + 3 * delaypoint)
      (fun k => [(Region.powerLawIn, k), (Region.powerLawIn, k - 1)])

/-- Lines 212-215: the accesses of the stage D loop entered with the loop variable `i`:
`sampIHC[i/10]` and `powerLawIn[i]`. -/
def accessDLoop (hi : Int) (i : Int) : List (Region × Int) :=
  if i < hi then
    [(Region.samp, Int.tdiv i 10), (Region.powerLawIn, i)] ++ accessDLoop hi (i + 10)
  else []
termination_by (hi - i).toNat
decreasing_by omega

/-- Lines 227-285: the accesses of the stage E iteration with `k = indx`: `sampIHC[indx]`,
`sout1[k]`, `sout2[k]`, `synSampOut[k]`; `sout1[j]`, `sout2[j]` for `j ≤ k` when
`implnt == 1`; the cascade buffers at `k`, `k-1`, `k-2` (and `n3[0]`) in the branches of
lines 242-282 when `implnt == 0`. -/
def accessEBody (implnt : α) (k : Int) : List (Region × Int) :=
  [(Region.samp, k)]
  ++ (if implnt = 1 then logLoop 0 (k + 1) (fun j => [(Region.samp, j)]) else [])
  ++ (if implnt = 0 then
        (if k = 0 then [(Region.samp, k), (Region.samp, 0)]
         else if k = 1 then [(Region.samp, k), (Region.samp, k - 1)]
         else [(Region.samp, k), (Region.samp, k - 1), (Region.samp, k - 2)])
      else [])

/-- Lines 294-303: the accesses of stage F, `k` being the value left by the stage E loop:
`synSampOut[z+1]`, `synSampOut[z]`, `TmpSyn[z*resamp+b]`, then `TmpSyn[i+delaypoint]`. -/
def accessF (k resamp totalstim nrep delaypoint : Int) : List (Region × Int) :=
  logLoop 0 (k - 1) (fun z => [(Region.samp, z + 1), (Region.samp, z)]
      ++ logLoop 0 resamp (fun b => [(Region.TmpSyn, z * resamp + b)]))
  ++ logLoop 0 (totalstim * nrep) (fun i => [(Region.TmpSyn, i + delaypoint)])

/-- The accesses of stages C-F for a call with the given `delaypoint`; the stage E loop runs
`stageEBound` times and leaves `k = max stageEBound 0`. -/
def accesses (totalstim nrep delaypoint : Int) (tdres implnt sampFreq : α) :
    List (Region × Int) :=
  accessC totalstim nrep delaypoint
  ++ accessDLoop (totalstim * nrep + 2 * delaypoint) 0
  ++ logLoop 0 (stageEBound totalstim nrep delaypoint tdres sampFreq) (accessEBody implnt)
  ++ accessF (max (stageEBound totalstim nrep delaypoint tdres sampFreq) 0)
      (resamp tdres sampFreq) totalstim nrep delaypoint

/-! ## The routine on the allocated heap -/

/-- `Synapse` on the heap as allocated (lines 107-122, 211): the result of the routine when
every access of stages C-F lies inside its `calloc`ed buffer, and `none` when some access falls
outside its buffer, where C defines no result.  The accesses of stage B (`ihcout[indx]`,
`exponOut[k]`) and the stores to `synouttmp` stay below `totalstim*nrep`. -/
def SynapseChecked (lm : Libm α) (ind : Indet α) (ihcout randNums : Int → α) (tdres cf : α)
    (totalstim nrep : Int) (spont implnt sampFreq : α) (synouttmp : Int → α) :
    Option ((Int → α) × α) :=
  if ∀ a ∈ accesses totalstim nrep (delaypoint cf) tdres implnt sampFreq,
      0 ≤ a.2 ∧ a.2 < regionLen totalstim nrep (delaypoint cf) tdres sampFreq a.1
  then some (Synapse lm ind ihcout randNums tdres cf totalstim nrep spont implnt sampFreq
    synouttmp)
  else none

/-! ## Loop lemmas -/

theorem forLoop_of_le {σ : Type} (lo hi : Int) (body : Int → σ → σ) (s : σ) (h : hi ≤ lo) :
    forLoop lo hi body s = s := by
  rw [forLoop, if_neg (by omega)]

theorem forLoop_step {σ : Type} (lo hi : Int) (body : Int → σ → σ) (s : σ) (h : lo < hi) :
    forLoop lo hi body s = forLoop (lo + 1) hi body (body lo s) := by
  rw [forLoop, if_pos h]

/-- Peeling the last iteration of a loop. -/
theorem forLoop_succ {σ : Type} (body : Int → σ → σ) (n : Nat) :
    ∀ (lo hi : Int) (s : σ), (hi - lo).toNat = n → lo ≤ hi →
      forLoop lo (hi + 1) body s = body hi (forLoop lo hi body s) := by
  induction n with
  | zero =>
    intro lo hi s hn hle
    have : lo = hi := by omega
    subst this
    rw [forLoop_step _ _ _ _ (by omega), forLoop_of_le _ _ _ _ (le_refl _),
      forLoop_of_le _ _ _ _ (le_refl _)]
  | succ n ih =>
    intro lo hi s hn hle
    have hlt : lo < hi := by omega
    rw [forLoop_step _ _ _ _ (by omega), forLoop_step lo hi _ _ hlt]
    exact ih (lo + 1) hi (body lo s) (by omega) (by omega)

theorem forLoop_last {σ : Type} (lo hi : Int) (body : Int → σ → σ) (s : σ) (h : lo ≤ hi) :
    forLoop lo (hi + 1) body s = body hi (forLoop lo hi body s) :=
  forLoop_succ body _ lo hi s rfl h

/-- Invariant rule for `forLoop`: `P i t` relates the loop variable and the state. -/
theorem forLoop_inv {σ : Type} (P : Int → σ → Prop) (body : Int → σ → σ) (hi : Int)
    (hstep : ∀ i t, i < hi → P i t → P (i + 1) (body i t)) (n : Nat) :
    ∀ (lo : Int) (s : σ), (hi - lo).toNat = n → lo ≤ hi → P lo s →
      P hi (forLoop lo hi body s) := by
  induction n with
  | zero =>
    intro lo s hn hle h0
    have : lo = hi := by omega
    subst this
    rw [forLoop_of_le _ _ _ _ (le_refl _)]
    exact h0
  | succ n ih =>
    intro lo s hn hle h0
    rw [forLoop_step _ _ _ _ (by omega)]
    exact ih (lo + 1) (body lo s) (by omega) (by omega) (hstep lo s (by omega) h0)

/-- State-only invariant: preserved by every iteration, hence by the loop. -/
theorem forLoop_preserves {σ : Type} (P : σ → Prop) (body : Int → σ → σ) (lo hi : Int) (s : σ)
    (hstep : ∀ i t, lo ≤ i → i < hi → P t → P (body i t)) (h0 : P s) :
    P (forLoop lo hi body s) := by
  by_cases hle : lo ≤ hi
  · have := forLoop_inv (fun i t => lo ≤ i ∧ P t) body hi
      (fun i t hi2 ht => ⟨by omega, hstep i t ht.1 hi2 ht.2⟩) _ lo s rfl hle ⟨le_refl _, h0⟩
    exact this.2
  · rw [forLoop_of_le _ _ _ _ (by omega)]
    exact h0

/-! ## Buffer lemmas -/

theorem bufSet_same {β : Type} (buf : Int → β) (i : Int) (v : β) : bufSet buf i v i = v := by
  simp [bufSet]

theorem bufSet_other {β : Type} (buf : Int → β) (i j : Int) (v : β) (h : j ≠ i) :
    bufSet buf i v j = buf j := by
  simp [bufSet, h]

/-- Invariant rule for `forLoop` over the range `lo ≤ i < hi`. -/
theorem forLoop_range {σ : Type} (P : Int → σ → Prop) (body : Int → σ → σ) (lo hi : Int)
    (s : σ) (hle : lo ≤ hi)
    (hstep : ∀ i t, lo ≤ i → i < hi → P i t → P (i + 1) (body i t)) (h0 : P lo s) :
    P hi (forLoop lo hi body s) := by
  have := forLoop_inv (fun i t => lo ≤ i ∧ P i t) body hi
    (fun i t hi2 ht => ⟨by omega, hstep i t ht.1 hi2 ht.2⟩) _ lo s rfl hle ⟨le_refl _, h0⟩
  exact this.2

/-- A loop that stores `f k` at index `k` for `lo ≤ k < hi` leaves exactly those values. -/
theorem forLoop_store {β : Type} (f : Int → β) (lo hi : Int) (p0 : Int → β) (j : Int) :
    forLoop lo hi (fun k p => bufSet p k (f k)) p0 j
      = if lo ≤ j ∧ j < hi then f j else p0 j := by
  by_cases hle : lo ≤ hi
  · have := forLoop_range
      (fun i (t : Int → β) => ∀ j, t j = if lo ≤ j ∧ j < i then f j else p0 j)
      (fun k p => bufSet p k (f k)) lo hi p0 hle
      (by
        intro i t hlo _ ht j
        show bufSet t i (f i) j = _
        by_cases hj : j = i
        · subst hj
          rw [bufSet_same, if_pos ⟨hlo, by omega⟩]
        · rw [bufSet_other _ _ _ _ hj, ht j]
          by_cases h1 : lo ≤ j ∧ j < i
          · rw [if_pos h1, if_pos ⟨h1.1, by omega⟩]
          · rw [if_neg h1, if_neg (by omega)])
      (by intro j; rw [if_neg (by omega)])
    exact this j
  · rw [forLoop_of_le _ _ _ _ (by omega), if_neg (by omega)]

/-- A loop that copies index `k-1` to index `k` for `lo ≤ k < hi` spreads the value held at
`lo-1` and leaves the other indices alone. -/
theorem forLoop_spread {β : Type} (lo hi : Int) (p0 : Int → β) (j : Int) :
    forLoop lo hi (fun k p => bufSet p k (p (k - 1))) p0 j
      = if lo ≤ j ∧ j < hi then p0 (lo - 1) else p0 j := by
  by_cases hle : lo ≤ hi
  · have := forLoop_range
      (fun i (t : Int → β) => ∀ j, t j = if lo ≤ j ∧ j < i then p0 (lo - 1) else p0 j)
      (fun k p => bufSet p k (p (k - 1))) lo hi p0 hle
      (by
        intro i t hlo _ ht j
        show bufSet t i (t (i - 1)) j = _
        by_cases hj : j = i
        · subst hj
          rw [bufSet_same, if_pos ⟨hlo, by omega⟩, ht (j - 1)]
          by_cases h1 : lo ≤ j - 1
          · rw [if_pos ⟨h1, by omega⟩]
          · rw [if_neg (by omega)]
            congr 1
            omega
        · rw [bufSet_other _ _ _ _ hj, ht j]
          by_cases h1 : lo ≤ j ∧ j < i
          · rw [if_pos h1, if_pos ⟨h1.1, by omega⟩]
          · rw [if_neg h1, if_neg (by omega)])
      (by intro j; rw [if_neg (by omega)])
    exact this j
  · rw [forLoop_of_le _ _ _ _ (by omega), if_neg (by omega)]

/-- The contents of `powerLawIn` after stage C, at every index. -/
theorem stageC_apply {β : Type} (exponOut : Int → β) (totalstim nrep d : Int) (p0 : Int → β)
    (k : Int) :
    stageC exponOut totalstim nrep d p0 k
      = if totalstim * nrep + d ≤ k ∧ k < totalstim * nrep + 3 * d then
          (if d ≤ totalstim * nrep + d - 1 ∧ totalstim * nrep + d - 1 < totalstim * nrep + d
            then exponOut (totalstim * nrep + d - 1 - d)
            else if 0 ≤ totalstim * nrep + d - 1 ∧ totalstim * nrep + d - 1 < d
              then exponOut 0 else p0 (totalstim * nrep + d - 1))
        else if d ≤ k ∧ k < totalstim * nrep + d then exponOut (k - d)
        else if 0 ≤ k ∧ k < d then exponOut 0 else p0 k := by
  unfold stageC
  simp only [forLoop_spread, forLoop_store]

/-- The contents of `sampIHC` after the stage D loop entered at `i = 10*m`. -/
theorem stageDLoop_apply {β : Type} (hi : Int) (pl : Int → β) (n : Nat) :
    ∀ (m : Int) (samp : Int → β), (hi - 10 * m).toNat ≤ n → 0 ≤ m → ∀ j,
      stageDLoop hi pl (10 * m) samp j
        = if m ≤ j ∧ 10 * j < hi then pl (10 * j) else samp j := by
  induction n with
  | zero =>
    intro m samp hn _ j
    rw [stageDLoop, if_neg (by omega), if_neg (by omega)]
  | succ n ih =>
    intro m samp hn hm j
    rw [stageDLoop]
    by_cases hlt : 10 * m < hi
    · rw [if_pos hlt]
      have h10 : 10 * m + 10 = 10 * (m + 1) := by ring
      have hdiv : Int.tdiv (10 * m) 10 = m := Int.mul_tdiv_cancel_left m (by decide)
      simp only [hdiv, h10]
      rw [ih (m + 1) _ (by omega) (by omega) j]
      by_cases hj : j = m
      · subst hj
        rw [if_neg (by omega), bufSet_same, if_pos ⟨le_refl _, hlt⟩]
      · rw [bufSet_other _ _ _ _ hj]
        by_cases h1 : m + 1 ≤ j ∧ 10 * j < hi
        · rw [if_pos h1, if_pos ⟨by omega, h1.2⟩]
        · rw [if_neg h1, if_neg (by omega)]
    · rw [if_neg hlt, if_neg (by omega)]

/-- The contents of `sampIHC` after stage D, at every index. -/
theorem stageD_apply (pl : Int → α) (totalstim nrep d : Int) (j : Int) :
    stageD pl totalstim nrep d j
      = if 0 ≤ j ∧ 10 * j < totalstim * nrep + 2 * d then pl (10 * j) else 0 := by
  have := stageDLoop_apply (totalstim * nrep + 2 * d) pl _ 0 calloc (le_refl _) (le_refl _) j
  simpa [stageD, calloc] using this

/-- A loop that stores `f b` at index `c + b` for `0 ≤ b < hi`. -/
theorem forLoop_store_offset {β : Type} (f : Int → β) (c hi : Int) (p0 : Int → β) (j : Int) :
    forLoop 0 hi (fun b p => bufSet p (c + b) (f b)) p0 j
      = if 0 ≤ j - c ∧ j - c < hi then f (j - c) else p0 j := by
  by_cases hle : 0 ≤ hi
  · have := forLoop_range
      (fun i (t : Int → β) => ∀ j, t j = if 0 ≤ j - c ∧ j - c < i then f (j - c) else p0 j)
      (fun b p => bufSet p (c + b) (f b)) 0 hi p0 hle
      (by
        intro i t hlo _ ht j
        show bufSet t (c + i) (f i) j = _
        by_cases hj : j = c + i
        · subst hj
          rw [bufSet_same, if_pos ⟨by omega, by omega⟩]
          congr 1
          omega
        · rw [bufSet_other _ _ _ _ hj, ht j]
          by_cases h1 : 0 ≤ j - c ∧ j - c < i
          · rw [if_pos h1, if_pos ⟨h1.1, by omega⟩]
          · rw [if_neg h1, if_neg (by omega)])
      (by intro j; rw [if_neg (by omega)])
    exact this j
  · rw [forLoop_of_le _ _ _ _ (by omega), if_neg (by omega)]

/-- One outer iteration of the up-sampling loop, at every index. -/
theorem upsampleBody_apply (s : Int → α) (r z : Int) (T : Int → α) (hr : 1 ≤ r) (j : Int) :
    upsampleBody s r z T j
      = if z * r ≤ j ∧ j < (z + 1) * r then interp s r j else T j := by
  unfold upsampleBody
  rw [forLoop_store_offset]
  have hexp : (z + 1) * r = z * r + r := by ring
  by_cases h : 0 ≤ j - z * r ∧ j - z * r < r
  · rw [if_pos h, if_pos ⟨by omega, by omega⟩]
    have hdm : j / r = z ∧ j % r = j - z * r :=
      (Int.ediv_emod_unique (by omega)).2 ⟨by rw [mul_comm r z]; omega, h.1, h.2⟩
    unfold interp
    rw [hdm.1, hdm.2]
  · rw [if_neg h, if_neg (by omega)]

/-- The contents of `TmpSyn` after the up-sampling loop, at every index. -/
theorem upsample_apply (s : Int → α) (k r : Int) (T0 : Int → α) (hr : 1 ≤ r) (j : Int) :
    upsample s k r T0 j
      = if 0 ≤ j ∧ j < (k - 1) * r then interp s r j else T0 j := by
  unfold upsample
  by_cases hle : 0 ≤ k - 1
  · have := forLoop_range
      (fun i (t : Int → α) => ∀ j, t j = if 0 ≤ j ∧ j < i * r then interp s r j else T0 j)
      (upsampleBody s r) 0 (k - 1) T0 hle
      (by
        intro i t hlo _ ht j
        rw [upsampleBody_apply s r i t hr j, ht j]
        have hexp : (i + 1) * r = i * r + r := by ring
        have hnn : 0 ≤ i * r := mul_nonneg hlo (by omega)
        by_cases h1 : i * r ≤ j ∧ j < (i + 1) * r
        · rw [if_pos h1, if_pos ⟨by omega, h1.2⟩]
        · rw [if_neg h1]
          by_cases h2 : 0 ≤ j ∧ j < i * r
          · rw [if_pos h2, if_pos ⟨h2.1, by omega⟩]
          · rw [if_neg h2, if_neg (by omega)])
      (by intro j; rw [if_neg (by omega)])
    exact this j
  · rw [forLoop_of_le _ _ _ _ (by omega)]
    have hneg : (k - 1) * r < 0 := mul_neg_of_neg_of_pos (by omega) (by omega)
    rw [if_neg (by omega)]

/-- With a non-positive ratio the up-sampling loop stores nothing. -/
theorem upsample_of_nonpos (s : Int → α) (k r : Int) (T0 : Int → α) (hr : r ≤ 0) :
    upsample s k r T0 = T0 := by
  unfold upsample
  apply forLoop_preserves (fun t => t = T0)
  · intro i t _ _ ht
    unfold upsampleBody
    rw [forLoop_of_le _ _ _ _ hr, ht]
  · rfl

/-- The contents of the output buffer after the trimming loop, at every index. -/
theorem trim_apply {β : Type} (T : Int → β) (totalstim nrep d : Int) (out0 : Int → β)
    (i : Int) :
    trim T totalstim nrep d out0 i
      = if 0 ≤ i ∧ i < totalstim * nrep then T (i + d) else out0 i := by
  unfold trim
  rw [forLoop_store (fun i => T (i + d))]

/-! ## Stage C and stage D -/

/-- C3. Stage C padding: for `N = totalstim*nrep ≥ 1` and `d = delaypoint ≥ 0` the buffer
`powerLawIn` is allocated with length `N + 3*d`, its first `d` entries equal `exponOut[0]`,
the entries `d ≤ k < N+d` equal `exponOut[k-d]`, and the entries `N+d ≤ k < N+3*d` equal
`exponOut[N-1]`. -/
theorem C3_stageC_padding (exponOut p0 : Int → α) (totalstim nrep d : Int)
    (hN : 1 ≤ totalstim * nrep) (hd : 0 ≤ d) :
    len_powerLawIn (α := α) totalstim nrep d = totalstim * nrep + 3 * d ∧
    (∀ k, 0 ≤ k → k < d → stageC exponOut totalstim nrep d p0 k = exponOut 0) ∧
    (∀ k, d ≤ k → k < totalstim * nrep + d →
      stageC exponOut totalstim nrep d p0 k = exponOut (k - d)) ∧
    (∀ k, totalstim * nrep + d ≤ k → k < totalstim * nrep + 3 * d →
      stageC exponOut totalstim nrep d p0 k = exponOut (totalstim * nrep - 1)) := by
  refine ⟨?_, ?_, ?_, ?_⟩
  · exact Int.ceil_intCast _
  · intro k h0 h1
    rw [stageC_apply, if_neg (by omega), if_neg (by omega), if_pos ⟨h0, h1⟩]
  · intro k h0 h1
    rw [stageC_apply, if_neg (by omega), if_pos ⟨h0, h1⟩]
  · intro k h0 h1
    rw [stageC_apply, if_pos ⟨h0, h1⟩, if_pos ⟨by omega, by omega⟩]
    congr 1
    omega

/-- Witness for C3 with `totalstim = 4`, `nrep = 1`, `delaypoint = 2` over the rationals. -/
theorem C3_stageC_padding_witness :
    len_powerLawIn (α := ℚ) 4 1 2 = 4 * 1 + 3 * 2 ∧
    stageC (fun i : Int => (i : ℚ) + 5) 4 1 2 calloc 1 = (fun i : Int => (i : ℚ) + 5) 0 ∧
    stageC (fun i : Int => (i : ℚ) + 5) 4 1 2 calloc 9 = (fun i : Int => (i : ℚ) + 5) (4 * 1 - 1) :=
  have h := C3_stageC_padding (fun i : Int => (i : ℚ) + 5) calloc 4 1 2 (by decide) (by decide)
  ⟨h.1, h.2.1 1 (by decide) (by decide), h.2.2.2 9 (by decide) (by decide)⟩

/-- C4. Stage D decimation: `sampIHC[j] = powerLawIn[10*j]` for every `j ≥ 0` with
`10*j < N + 2*delay`; the decimated buffer is unchanged when `powerLawIn` is altered at
indices that are not multiples of 10 or lie outside `[0, N + 2*delay)`; the factor is the
literal 10, the decimation taking neither `tdres` nor `sampFreq`. -/
theorem C4_stageD_decimation (totalstim nrep d : Int) :
    (∀ (powerLawIn : Int → α) (j : Int), 0 ≤ j → 10 * j < totalstim * nrep + 2 * d →
      stageD powerLawIn totalstim nrep d j = powerLawIn (10 * j)) ∧
    (∀ (powerLawIn powerLawIn2 : Int → α),
      (∀ i, 0 ≤ i → i < totalstim * nrep + 2 * d → 10 ∣ i → powerLawIn i = powerLawIn2 i) →
      stageD powerLawIn totalstim nrep d = stageD powerLawIn2 totalstim nrep d) := by
  constructor
  · intro pl j h0 h1
    rw [stageD_apply, if_pos ⟨h0, h1⟩]
  · intro pl pl2 h
    funext j
    rw [stageD_apply, stageD_apply]
    by_cases hj : 0 ≤ j ∧ 10 * j < totalstim * nrep + 2 * d
    · rw [if_pos hj, if_pos hj]
      exact h (10 * j) (by omega) hj.2 (dvd_mul_right 10 j)
    · rw [if_neg hj, if_neg hj]

/-- Witness for C4 with `totalstim = 25`, `nrep = 1`, `delaypoint = 3` over the rationals. -/
theorem C4_stageD_decimation_witness :
    stageD (fun i : Int => (i : ℚ)) 25 1 3 2 = (fun i : Int => (i : ℚ)) (10 * 2) ∧
    stageD (fun i : Int => (i : ℚ)) 25 1 3 = stageD (fun i : Int => if 10 ∣ i then (i : ℚ) else 7) 25 1 3 :=
  have h := C4_stageD_decimation (α := ℚ) 25 1 3
  ⟨h.1 (fun i : Int => (i : ℚ)) 2 (by decide) (by decide),
   h.2 (fun i : Int => (i : ℚ)) (fun i : Int => if 10 ∣ i then (i : ℚ) else 7)
     (fun i _ _ hdvd => by simp [hdvd])⟩

/-! ## Stage F -/

/-- The output of stage F at a valid output index is the up-sampled buffer read `delaypoint`
places further on. -/
theorem stageF_apply (s out0 : Int → α) (K r totalstim nrep d : Int) (i : Int)
    (h0 : 0 ≤ i) (hN : i < totalstim * nrep) :
    stageF s K r totalstim nrep d out0 i = upsample s K r calloc (i + d) := by
  unfold stageF
  rw [trim_apply, if_pos ⟨h0, hN⟩]

/-- C7. Stage F up-sampling and trim: with `resamp = ceil(1/(tdres*sampFreq)) ≥ 1` and a
delay `≥ 0`, for every output index `0 ≤ i < N` with `i + delay < (K-1)*resamp`, writing
`z = (i+delay) div resamp` and `b = (i+delay) mod resamp`, the output is
`s[z] + b*(s[z+1] - s[z])/resamp`; it is `s[z]` when `b = 0`; and it is the up-sampled sample
number `i + delay`, the first `delay` up-sampled samples being dropped. -/
theorem C7_stageF_interpolation (s out0 : Int → α) (K totalstim nrep delay : Int)
    (tdres sampFreq : α) (hr : 1 ≤ resamp tdres sampFreq) (hd : 0 ≤ delay) (i : Int)
    (h0 : 0 ≤ i) (hN : i < totalstim * nrep)
    (hi : i + delay < (K - 1) * resamp tdres sampFreq) :
    stageF s K (resamp tdres sampFreq) totalstim nrep delay out0 i
      = s ((i + delay) / resamp tdres sampFreq)
        + (((i + delay) % resamp tdres sampFreq : Int) : α)
          * (s ((i + delay) / resamp tdres sampFreq + 1)
              - s ((i + delay) / resamp tdres sampFreq))
          / ((resamp tdres sampFreq : Int) : α) ∧
    ((i + delay) % resamp tdres sampFreq = 0 →
      stageF s K (resamp tdres sampFreq) totalstim nrep delay out0 i
        = s ((i + delay) / resamp tdres sampFreq)) ∧
    stageF s K (resamp tdres sampFreq) totalstim nrep delay out0 i
      = upsample s K (resamp tdres sampFreq) calloc (i + delay) := by
  have hF := stageF_apply s out0 K (resamp tdres sampFreq) totalstim nrep delay i h0 hN
  have hU := upsample_apply s K (resamp tdres sampFreq) calloc hr (i + delay)
  rw [if_pos ⟨by omega, hi⟩] at hU
  refine ⟨?_, ?_, hF⟩
  · rw [hF, hU, interp, mul_div_assoc]
  · intro hb
    rw [hF, hU, interp, hb]
    simp

/-- Witness for C7: `tdres*sampFreq = 1/10`, `N = 40`, `delay = 3`, `K = 4`, `i = 12`. -/
theorem C7_stageF_interpolation_witness :
    stageF (fun k : Int => (k : ℚ) * k) 4 (resamp (1 / 100000 : ℚ) 10000) 40 1 3 calloc 12
      = (fun k : Int => (k : ℚ) * k) ((12 + 3) / resamp (1 / 100000 : ℚ) 10000)
        + (((12 + 3) % resamp (1 / 100000 : ℚ) 10000 : Int) : ℚ)
          * ((fun k : Int => (k : ℚ) * k) ((12 + 3) / resamp (1 / 100000 : ℚ) 10000 + 1)
              - (fun k : Int => (k : ℚ) * k) ((12 + 3) / resamp (1 / 100000 : ℚ) 10000))
          / ((resamp (1 / 100000 : ℚ) 10000 : Int) : ℚ) :=
  have hres : resamp (1 / 100000 : ℚ) 10000 = 10 := by
    unfold resamp
    rw [Int.ceil_eq_iff]
    norm_num
  (C7_stageF_interpolation (fun k : Int => (k : ℚ) * k) calloc 4 40 1 3 (1 / 100000) 10000
    (by rw [hres]; decide) (by decide) 12 (by decide) (by decide)
    (by rw [hres]; decide)).1

/-! ## The delay -/

/-- C9 (as stated) fails: `cf1 = 7000 < cf2 = 7001` give the same delay, 1071 samples. -/
theorem C9_counterexample :
    (0 : ℚ) < 7000 ∧ (7000 : ℚ) < 7001 ∧
      ¬ (delaypoint (7001 : ℚ) < delaypoint (7000 : ℚ)) := by
  have h1 : delaypoint (7000 : ℚ) = 1071 := by
    unfold delaypoint
    rw [Int.floor_eq_iff]
    norm_num
  have h2 : delaypoint (7001 : ℚ) = 1071 := by
    unfold delaypoint
    rw [Int.floor_eq_iff]
    norm_num
  rw [h1, h2]
  norm_num

/-- C9 (amended). Delay monotonicity: for `0 < cf1 ≤ cf2` the computed delay
`floor(7500/(cf/1000))` does not increase, `delaypoint cf2 ≤ delaypoint cf1`. -/
theorem C9_delay_antitone (cf1 cf2 : α) (h1 : 0 < cf1) (h2 : cf1 ≤ cf2) :
    delaypoint cf2 ≤ delaypoint cf1 := by
  unfold delaypoint
  apply Int.floor_le_floor
  have hpos : (0 : α) < 1e3 := by norm_num
  have ha : 0 < cf1 / 1e3 := div_pos h1 hpos
  have hb : cf1 / 1e3 ≤ cf2 / 1e3 := div_le_div_of_nonneg_right h2 hpos.le
  exact div_le_div_of_nonneg_left (by norm_num) ha hb

/-- Witness for the amended C9 at `cf1 = 7000`, `cf2 = 7001`. -/
theorem C9_delay_antitone_witness : delaypoint (7001 : ℚ) ≤ delaypoint (7000 : ℚ) :=
  C9_delay_antitone (7000 : ℚ) 7001 (by norm_num) (by norm_num)

/-! ## The resampling round trip -/

theorem cmax_zero_eq (x : α) : cmax 0 x = max 0 x := by
  unfold cmax
  by_cases h : (0 : α) > x
  · rw [if_pos h, max_eq_left h.le]
  · rw [if_neg h, max_eq_right (not_lt.mp h)]

theorem cmax_zero_nonneg (x : α) : 0 ≤ cmax 0 x := by
  rw [cmax_zero_eq]
  exact le_max_left _ _

theorem approxN_fields (s : PLState α) :
    (approxN s).sout1 = s.sout1 ∧ (approxN s).sout2 = s.sout2 ∧
    (approxN s).synSampOut = s.synSampOut ∧ (approxN s).k = s.k ∧
    (approxN s).I1 = s.I1 ∧ (approxN s).I2 = s.I2 := by
  unfold approxN
  dsimp only
  split_ifs <;> exact ⟨rfl, rfl, rfl, rfl, rfl, rfl⟩

theorem approxM_fields (s : PLState α) :
    (approxM s).sout1 = s.sout1 ∧ (approxM s).sout2 = s.sout2 ∧
    (approxM s).synSampOut = s.synSampOut ∧ (approxM s).k = s.k ∧
    (approxM s).I1 = s.I1 ∧ (approxM s).I2 = s.I2 := by
  unfold approxM
  dsimp only
  split_ifs <;> exact ⟨rfl, rfl, rfl, rfl, rfl, rfl⟩

theorem approxStep_fields (s : PLState α) :
    (approxStep s).sout1 = s.sout1 ∧ (approxStep s).sout2 = s.sout2 ∧
    (approxStep s).synSampOut = s.synSampOut ∧ (approxStep s).k = s.k := by
  unfold approxStep
  simp only [(approxM_fields _).1, (approxM_fields _).2.1, (approxM_fields _).2.2.1,
    (approxM_fields _).2.2.2.1, (approxN_fields _).1, (approxN_fields _).2.1,
    (approxN_fields _).2.2.1, (approxN_fields _).2.2.2.1, and_self]

theorem exactStep_fields (bw : α) (s : PLState α) :
    (exactStep bw s).sout1 = s.sout1 ∧ (exactStep bw s).sout2 = s.sout2 ∧
    (exactStep bw s).synSampOut = s.synSampOut ∧ (exactStep bw s).k = s.k :=
  ⟨rfl, rfl, rfl, rfl⟩

/-- What one iteration of the stage E loop does to `sout1`, `sout2`, `synSampOut`, `k`. -/
theorem stageEBody_fields (sampIHC randNums : Int → α) (implnt sampFreq : α) (indx : Int)
    (s : PLState α) :
    (stageEBody sampIHC randNums implnt sampFreq indx s).sout1
      = bufSet s.sout1 s.k (cmax 0 (sampIHC indx + randNums indx - alpha1 * s.I1)) ∧
    (stageEBody sampIHC randNums implnt sampFreq indx s).sout2
      = bufSet s.sout2 s.k (cmax 0 (sampIHC indx - alpha2 * s.I2)) ∧
    (stageEBody sampIHC randNums implnt sampFreq indx s).synSampOut
      = bufSet s.synSampOut s.k (cmax 0 (sampIHC indx + randNums indx - alpha1 * s.I1)
          + cmax 0 (sampIHC indx - alpha2 * s.I2)) ∧
    (stageEBody sampIHC randNums implnt sampFreq indx s).k = s.k + 1 := by
  unfold stageEBody
  by_cases h1 : implnt = 1
  · have h0 : implnt ≠ 0 := by rw [h1]; exact one_ne_zero
    simp only [if_pos h1, if_neg h0, (exactStep_fields _ _).1,
      (exactStep_fields _ _).2.1, (exactStep_fields _ _).2.2.1, (exactStep_fields _ _).2.2.2,
      bufSet_same, and_self]
  · by_cases h0 : implnt = 0
    · simp only [if_neg h1, if_pos h0, (approxStep_fields _).1, (approxStep_fields _).2.1,
        (approxStep_fields _).2.2.1, (approxStep_fields _).2.2.2, bufSet_same, and_self]
    · simp only [if_neg h1, if_neg h0, bufSet_same, and_self]

theorem stageESteps_zero (sampIHC randNums : Int → α) (implnt sampFreq : α) :
    stageESteps sampIHC randNums implnt sampFreq 0 = stageEInit := by
  unfold stageESteps
  rw [forLoop_of_le _ _ _ _ (le_refl _)]

theorem stageESteps_succ (sampIHC randNums : Int → α) (implnt sampFreq : α) (n : Nat) :
    stageESteps sampIHC randNums implnt sampFreq ((n : Int) + 1)
      = stageEBody sampIHC randNums implnt sampFreq n
          (stageESteps sampIHC randNums implnt sampFreq n) := by
  unfold stageESteps
  rw [forLoop_last _ _ _ _ (by omega)]

/-- In the stage E loop the counter `k` equals the loop variable `indx`. -/
theorem stageESteps_k (sampIHC randNums : Int → α) (implnt sampFreq : α) (n : Nat) :
    (stageESteps sampIHC randNums implnt sampFreq n).k = n := by
  induction n with
  | zero =>
    simp only [Nat.cast_zero, stageESteps_zero]
    rfl
  | succ n ih =>
    rw [Nat.cast_succ, stageESteps_succ, (stageEBody_fields _ _ _ _ _ _).2.2.2, ih]

/-- The entries `k < n` of `sout1`, `sout2` and `synSampOut` after `n` iterations are the
values stored by iteration `k`, from the feedback held on entry to that iteration. -/
theorem stageESteps_entries (sampIHC randNums : Int → α) (implnt sampFreq : α) (k : Nat) :
    ∀ n : Nat, k < n →
      (stageESteps sampIHC randNums implnt sampFreq n).sout1 k
        = cmax 0 (sampIHC k + randNums k
            - alpha1 * (stageESteps sampIHC randNums implnt sampFreq k).I1) ∧
      (stageESteps sampIHC randNums implnt sampFreq n).sout2 k
        = cmax 0 (sampIHC k - alpha2 * (stageESteps sampIHC randNums implnt sampFreq k).I2) ∧
      (stageESteps sampIHC randNums implnt sampFreq n).synSampOut k
        = cmax 0 (sampIHC k + randNums k
            - alpha1 * (stageESteps sampIHC randNums implnt sampFreq k).I1)
          + cmax 0 (sampIHC k
            - alpha2 * (stageESteps sampIHC randNums implnt sampFreq k).I2) := by
  intro n
  induction n with
  | zero => intro h; omega
  | succ n ih =>
    intro h
    have hf := stageEBody_fields sampIHC randNums implnt sampFreq n
      (stageESteps sampIHC randNums implnt sampFreq n)
    rw [stageESteps_k] at hf
    rw [Nat.cast_succ, stageESteps_succ, hf.1, hf.2.1, hf.2.2.1]
    by_cases hkn : k = n
    · subst hkn
      simp only [bufSet_same, and_self]
    · have hne : (k : Int) ≠ (n : Int) := by omega
      simp only [bufSet_other _ _ _ _ hne]
      exact ih (by omega)

/-- The stage E loop leaves `k` equal to its bound when the bound is not negative. -/
theorem stageE_k (sampIHC randNums : Int → α) (implnt sampFreq tdres : α)
    (totalstim nrep delay : Int)
    (hK : 0 ≤ stageEBound totalstim nrep delay tdres sampFreq) :
    (stageE sampIHC randNums implnt sampFreq tdres totalstim nrep delay).k
      = stageEBound totalstim nrep delay tdres sampFreq := by
  unfold stageE
  obtain ⟨n, hn⟩ := Int.eq_ofNat_of_zero_le hK
  rw [hn]
  exact stageESteps_k _ _ _ _ n

/-- C5. Stage E per-step output: for every decimated index `0 ≤ k < K`,
`synSampOut[k] = sout1[k] + sout2[k]` with
`sout1[k] = max(0, sampIHC[k] + noise[k] - alpha1*I1)` and
`sout2[k] = max(0, sampIHC[k] - alpha2*I2)`, where `alpha1 = 0.25`, `alpha2 = 1000` and
`I1`, `I2` are the feedback values held after the iterations before `k` (both 0 before the
first iteration, so `synSampOut[0] = max(0, sampIHC[0] + noise[0]) + max(0, sampIHC[0])`). -/
theorem C5_stageE_output (sampIHC randNums : Int → α) (implnt sampFreq tdres : α)
    (totalstim nrep delay : Int) (k : Int) (h0 : 0 ≤ k)
    (hk : k < stageEBound totalstim nrep delay tdres sampFreq) :
    (stageE sampIHC randNums implnt sampFreq tdres totalstim nrep delay).synSampOut k
      = (stageE sampIHC randNums implnt sampFreq tdres totalstim nrep delay).sout1 k
        + (stageE sampIHC randNums implnt sampFreq tdres totalstim nrep delay).sout2 k ∧
    (stageE sampIHC randNums implnt sampFreq tdres totalstim nrep delay).sout1 k
      = max 0 (sampIHC k + randNums k
          - alpha1 * (stageESteps sampIHC randNums implnt sampFreq k).I1) ∧
    (stageE sampIHC randNums implnt sampFreq tdres totalstim nrep delay).sout2 k
      = max 0 (sampIHC k - alpha2 * (stageESteps sampIHC randNums implnt sampFreq k).I2) ∧
    (alpha1 : α) = 0.25 ∧ (alpha2 : α) = 1000 ∧
    (stageESteps sampIHC randNums implnt sampFreq 0).I1 = 0 ∧
    (stageESteps sampIHC randNums implnt sampFreq 0).I2 = 0 ∧
    (k = 0 →
      (stageE sampIHC randNums implnt sampFreq tdres totalstim nrep delay).synSampOut 0
        = max 0 (sampIHC 0 + randNums 0) + max 0 (sampIHC 0)) := by
  obtain ⟨n, rfl⟩ := Int.eq_ofNat_of_zero_le h0
  obtain ⟨m, hm⟩ := Int.eq_ofNat_of_zero_le (by omega :
    0 ≤ stageEBound totalstim nrep delay tdres sampFreq)
  have hnm : n < m := by omega
  have he := stageESteps_entries sampIHC randNums implnt sampFreq n m hnm
  have hz := stageESteps_zero sampIHC randNums implnt sampFreq
  unfold stageE
  rw [hm]
  refine ⟨?_, ?_, ?_, ?_, ?_, ?_, ?_, ?_⟩
  · rw [he.1, he.2.1, he.2.2]
  · rw [he.1, cmax_zero_eq]
  · rw [he.2.1, cmax_zero_eq]
  · unfold alpha1
    norm_num
  · unfold alpha2
    norm_num
  · rw [hz]
    rfl
  · rw [hz]
    rfl
  · intro hn0
    have hn : n = 0 := by omega
    subst hn
    have he0 := he.2.2
    simp only [Nat.cast_zero] at he0
    rw [he0, hz, cmax_zero_eq, cmax_zero_eq]
    simp [stageEInit]

/-- Witness for C5: `N = 30`, `delay = 0`, `tdres*sampFreq = 1/10` (so `K = 3`), `k = 1`,
approximate implementation, over the rationals. -/
theorem C5_stageE_output_witness :
    (stageE (fun i : Int => (i : ℚ)) (fun _ : Int => (1 : ℚ)) 0 10000 (1 / 100000) 30 1 0).sout2 1
      = max 0 ((fun i : Int => (i : ℚ)) 1 - alpha2
          * (stageESteps (fun i : Int => (i : ℚ)) (fun _ : Int => (1 : ℚ)) 0 10000 1).I2) :=
  have hK : stageEBound 30 1 0 (1 / 100000 : ℚ) 10000 = 3 := by
    unfold stageEBound
    rw [Int.floor_eq_iff]
    norm_num
  (C5_stageE_output (fun i : Int => (i : ℚ)) (fun _ : Int => (1 : ℚ)) 0 10000 (1 / 100000)
    30 1 0 1 (by decide) (by rw [hK]; decide)).2.2.1

/-! ## The exact power-law sums -/

/-- A loop that accumulates two sums computes the two finite sums. -/
theorem forLoop_sums (f g : Int → α) (n : Nat) :
    forLoop 0 (n : Int) (fun j (I : α × α) => (I.1 + f j, I.2 + g j)) (0, 0)
      = (∑ j in Finset.range n, f j, ∑ j in Finset.range n, g j) := by
  induction n with
  | zero =>
    rw [Nat.cast_zero, forLoop_of_le _ _ _ _ (le_refl _)]
    simp
  | succ n ih =>
    rw [Nat.cast_succ, forLoop_last _ _ _ _ (by omega), ih, Finset.sum_range_succ,
      Finset.sum_range_succ]

/-- The inner loop of the exact implementation, as two finite sums. -/
theorem exactSums_eq (sout1 sout2 : Int → α) (bw : α) (k : Nat) :
    exactSums sout1 sout2 bw k
      = (∑ j in Finset.range (k + 1),
            sout1 j * bw / (((k : α) - (j : α)) * bw + beta1),
         ∑ j in Finset.range (k + 1),
            sout2 j * bw / (((k : α) - (j : α)) * bw + beta2)) := by
  unfold exactSums
  have h := forLoop_sums
    (fun j : Int => sout1 j * bw / ((((k : Int) - j : Int) : α) * bw + beta1))
    (fun j : Int => sout2 j * bw / ((((k : Int) - j : Int) : α) * bw + beta2)) (k + 1)
  rw [Nat.cast_succ] at h
  rw [h]
  simp only [Int.cast_sub, Int.cast_natCast]

/-- The feedback left by one iteration of the stage E loop when `implnt == 1`. -/
theorem stageEBody_exact (sampIHC randNums : Int → α) (sampFreq : α) (indx : Int)
    (s : PLState α) :
    (stageEBody sampIHC randNums 1 sampFreq indx s).I1
      = (exactSums (stageEBody sampIHC randNums 1 sampFreq indx s).sout1
          (stageEBody sampIHC randNums 1 sampFreq indx s).sout2 (binwidth sampFreq) s.k).1 ∧
    (stageEBody sampIHC randNums 1 sampFreq indx s).I2
      = (exactSums (stageEBody sampIHC randNums 1 sampFreq indx s).sout1
          (stageEBody sampIHC randNums 1 sampFreq indx s).sout2 (binwidth sampFreq) s.k).2 := by
  have hf := stageEBody_fields sampIHC randNums 1 sampFreq indx s
  rw [hf.1, hf.2.1]
  unfold stageEBody
  have h10 : (1 : α) ≠ 0 := one_ne_zero
  simp only [if_true, if_neg h10]
  exact ⟨rfl, rfl⟩

/-- The feedback after iteration `k` of the exact implementation, over the buffers as they are
after `n > k` iterations. -/
theorem stageESteps_exact (sampIHC randNums : Int → α) (sampFreq : α) (k n : Nat)
    (hkn : k < n) :
    (stageESteps sampIHC randNums 1 sampFreq ((k : Int) + 1)).I1
      = ∑ j in Finset.range (k + 1),
          (stageESteps sampIHC randNums 1 sampFreq n).sout1 j * (1 / sampFreq)
            / (((k : α) - (j : α)) * (1 / sampFreq) + 5e-4) ∧
    (stageESteps sampIHC randNums 1 sampFreq ((k : Int) + 1)).I2
      = ∑ j in Finset.range (k + 1),
          (stageESteps sampIHC randNums 1 sampFreq n).sout2 j * (1 / sampFreq)
            / (((k : α) - (j : α)) * (1 / sampFreq) + 1e-1) := by
  have hb := stageEBody_exact sampIHC randNums sampFreq k
    (stageESteps sampIHC randNums 1 sampFreq k)
  rw [← stageESteps_succ, stageESteps_k, exactSums_eq] at hb
  have hent : ∀ j ∈ Finset.range (k + 1),
      (stageESteps sampIHC randNums 1 sampFreq ((k : Int) + 1)).sout1 j
        = (stageESteps sampIHC randNums 1 sampFreq n).sout1 j ∧
      (stageESteps sampIHC randNums 1 sampFreq ((k : Int) + 1)).sout2 j
        = (stageESteps sampIHC randNums 1 sampFreq n).sout2 j := by
    intro j hj
    have hjk : j < k + 1 := Finset.mem_range.mp hj
    have e1 := stageESteps_entries sampIHC randNums 1 sampFreq j (k + 1) hjk
    have e2 := stageESteps_entries sampIHC randNums 1 sampFreq j n (by omega)
    rw [Nat.cast_succ] at e1
    exact ⟨by rw [e1.1, e2.1], by rw [e1.2.1, e2.2.1]⟩
  constructor
  · rw [hb.1]
    show ∑ j in Finset.range (k + 1), _ = _
    apply Finset.sum_congr rfl
    intro j hj
    rw [(hent j hj).1]
    rfl
  · rw [hb.2]
    show ∑ j in Finset.range (k + 1), _ = _
    apply Finset.sum_congr rfl
    intro j hj
    rw [(hent j hj).2]
    rfl

/-- C6. Exact adaptation (`implnt == 1`): for every `k < K` the feedback held after step `k`
is `I1 = Σ_{j=0..k} sout1[j]*binwidth/((k-j)*binwidth + beta1)` and
`I2 = Σ_{j=0..k} sout2[j]*binwidth/((k-j)*binwidth + beta2)` with `binwidth = 1/sampFreq`,
`beta1 = 5e-4`, `beta2 = 1e-1` (a full sum started from zero, whatever the feedback was
before), and these are the values that, scaled by `alpha1 = 0.25` and `alpha2 = 1000`, are
subtracted in forming `sout1[k+1]` and `sout2[k+1]`. -/
theorem C6_exact_feedback (sampIHC randNums : Int → α) (sampFreq tdres : α)
    (totalstim nrep delay : Int) (k : Nat)
    (hk : (k : Int) < stageEBound totalstim nrep delay tdres sampFreq) :
    (stageESteps sampIHC randNums 1 sampFreq ((k : Int) + 1)).I1
      = ∑ j in Finset.range (k + 1),
          (stageE sampIHC randNums 1 sampFreq tdres totalstim nrep delay).sout1 j
            * (1 / sampFreq) / (((k : α) - (j : α)) * (1 / sampFreq) + 5e-4) ∧
    (stageESteps sampIHC randNums 1 sampFreq ((k : Int) + 1)).I2
      = ∑ j in Finset.range (k + 1),
          (stageE sampIHC randNums 1 sampFreq tdres totalstim nrep delay).sout2 j
            * (1 / sampFreq) / (((k : α) - (j : α)) * (1 / sampFreq) + 1e-1) ∧
    ((k : Int) + 1 < stageEBound totalstim nrep delay tdres sampFreq →
      (stageE sampIHC randNums 1 sampFreq tdres totalstim nrep delay).sout1 ((k : Int) + 1)
        = max 0 (sampIHC ((k : Int) + 1) + randNums ((k : Int) + 1)
            - 0.25 * ∑ j in Finset.range (k + 1),
                (stageE sampIHC randNums 1 sampFreq tdres totalstim nrep delay).sout1 j
                  * (1 / sampFreq) / (((k : α) - (j : α)) * (1 / sampFreq) + 5e-4)) ∧
      (stageE sampIHC randNums 1 sampFreq tdres totalstim nrep delay).sout2 ((k : Int) + 1)
        = max 0 (sampIHC ((k : Int) + 1)
            - 1000 * ∑ j in Finset.range (k + 1),
                (stageE sampIHC randNums 1 sampFreq tdres totalstim nrep delay).sout2 j
                  * (1 / sampFreq) / (((k : α) - (j : α)) * (1 / sampFreq) + 1e-1))) := by
  obtain ⟨m, hm⟩ := Int.eq_ofNat_of_zero_le (by omega :
    0 ≤ stageEBound totalstim nrep delay tdres sampFreq)
  have hkm : k < m := by omega
  have hex := stageESteps_exact sampIHC randNums sampFreq k m hkm
  unfold stageE
  rw [hm]
  refine ⟨hex.1, hex.2, ?_⟩
  intro hk1
  have he := stageESteps_entries sampIHC randNums 1 sampFreq (k + 1) m (by omega)
  rw [Nat.cast_succ] at he
  have ha1 : (alpha1 : α) = 0.25 := by
    unfold alpha1
    norm_num
  have ha2 : (alpha2 : α) = 1000 := by
    unfold alpha2
    norm_num
  constructor
  · rw [he.1, cmax_zero_eq, hex.1, ha1]
  · rw [he.2.1, cmax_zero_eq, hex.2, ha2]

/-- Witness for C6: `N = 30`, `delay = 0`, `tdres*sampFreq = 1/10` (so `K = 3`), `k = 1`. -/
theorem C6_exact_feedback_witness :
    (stageESteps (fun i : Int => (i : ℚ)) (fun _ : Int => (1 : ℚ)) 1 10000 ((1 : Nat) + 1)).I1
      = ∑ j in Finset.range (1 + 1),
          (stageE (fun i : Int => (i : ℚ)) (fun _ : Int => (1 : ℚ)) 1 10000 (1 / 100000)
              30 1 0).sout1 j
            * (1 / 10000) / ((((1 : Nat) : ℚ) - (j : ℚ)) * (1 / 10000) + 5e-4) :=
  have hK : stageEBound 30 1 0 (1 / 100000 : ℚ) 10000 = 3 := by
    unfold stageEBound
    rw [Int.floor_eq_iff]
    norm_num
  (C6_exact_feedback (fun i : Int => (i : ℚ)) (fun _ : Int => (1 : ℚ)) 10000 (1 / 100000)
    30 1 0 1 (by rw [hK]; decide)).1

/-! ## The output of the routine -/

/-- Every entry of `synSampOut` is non-negative after any number of stage E iterations. -/
theorem stageESteps_synSampOut_nonneg (sampIHC randNums : Int → α) (implnt sampFreq : α)
    (n j : Int) : 0 ≤ (stageESteps sampIHC randNums implnt sampFreq n).synSampOut j := by
  unfold stageESteps
  have := forLoop_preserves (fun t : PLState α => ∀ j, 0 ≤ t.synSampOut j)
    (stageEBody sampIHC randNums implnt sampFreq) 0 n stageEInit
    (by
      intro i t _ _ ht j
      rw [(stageEBody_fields sampIHC randNums implnt sampFreq i t).2.2.1]
      by_cases hj : j = t.k
      · subst hj
        rw [bufSet_same]
        exact add_nonneg (cmax_zero_nonneg _) (cmax_zero_nonneg _)
      · rw [bufSet_other _ _ _ _ hj]
        exact ht j)
    (by
      intro j
      exact le_refl _)
  exact this j

/-- A sample interpolated between two non-negative samples is non-negative. -/
theorem interp_nonneg (s : Int → α) (r : Int) (hr : 1 ≤ r) (hs : ∀ j, 0 ≤ s j) (j : Int) :
    0 ≤ interp s r j := by
  unfold interp
  have hb0 : 0 ≤ j % r := Int.emod_nonneg j (by omega)
  have hb1 : j % r < r := Int.emod_lt_of_pos j (by omega)
  have hrc : (0 : α) < (r : α) := by exact_mod_cast (by omega : 0 < r)
  have hbc0 : (0 : α) ≤ ((j % r : Int) : α) := by exact_mod_cast hb0
  have hbc1 : ((j % r : Int) : α) ≤ (r : α) := by exact_mod_cast hb1.le
  have ht0 : 0 ≤ ((j % r : Int) : α) / (r : α) := div_nonneg hbc0 hrc.le
  have ht1 : ((j % r : Int) : α) / (r : α) ≤ 1 := (div_le_one hrc).mpr hbc1
  have hconv : s (j / r) + ((j % r : Int) : α) * ((s (j / r + 1) - s (j / r)) / (r : α))
      = s (j / r) * (1 - ((j % r : Int) : α) / (r : α))
        + s (j / r + 1) * (((j % r : Int) : α) / (r : α)) := by
    field_simp
    ring
  rw [hconv]
  exact add_nonneg (mul_nonneg (hs _) (by linarith)) (mul_nonneg (hs _) ht0)

/-- Every entry of the up-sampled buffer is non-negative when the decimated samples are. -/
theorem upsample_nonneg (s : Int → α) (k r : Int) (hs : ∀ j, 0 ≤ s j) (j : Int) :
    0 ≤ upsample s k r calloc j := by
  by_cases hr : 1 ≤ r
  · rw [upsample_apply s k r calloc hr j]
    split_ifs
    · exact interp_nonneg s r hr hs j
    · exact le_refl _
  · rw [upsample_of_nonpos s k r calloc (by omega)]
    exact le_refl _

/-- On buffers without a length, `Synapse` returns `N = totalstim*nrep`, leaves every index of
the output buffer outside `0 ≤ i < N` as it was, and overwrites every index `0 ≤ i < N` (the
value there does not depend on the previous content). -/
theorem Synapse_output_length (lm : Libm α) (ind : Indet α) (ihcout randNums : Int → α)
    (tdres cf : α) (totalstim nrep : Int) (spont implnt sampFreq : α) :
    (∀ out0 : Int → α,
      (Synapse lm ind ihcout randNums tdres cf totalstim nrep spont implnt sampFreq out0).2
        = ((totalstim * nrep : Int) : α)) ∧
    (∀ (out0 : Int → α) (i : Int), ¬ (0 ≤ i ∧ i < totalstim * nrep) →
      (Synapse lm ind ihcout randNums tdres cf totalstim nrep spont implnt sampFreq out0).1 i
        = out0 i) ∧
    (∀ (out0 out1 : Int → α) (i : Int), 0 ≤ i → i < totalstim * nrep →
      (Synapse lm ind ihcout randNums tdres cf totalstim nrep spont implnt sampFreq out0).1 i
        = (Synapse lm ind ihcout randNums tdres cf totalstim nrep spont implnt sampFreq
            out1).1 i) := by
  refine ⟨?_, ?_, ?_⟩
  · intro out0
    show returnValue totalstim nrep = _
    unfold returnValue
    rw [Int.ceil_intCast]
  · intro out0 i hi
    show stageF _ _ _ _ _ _ out0 i = _
    unfold stageF
    rw [trim_apply, if_neg hi]
  · intro out0 out1 i h0 hN
    show stageF _ _ _ _ _ _ out0 i = stageF _ _ _ _ _ _ out1 i
    rw [stageF_apply _ _ _ _ _ _ _ _ h0 hN, stageF_apply _ _ _ _ _ _ _ _ h0 hN]

/-- In exact arithmetic and on buffers without a length, every output sample `synouttmp[i]`,
`0 ≤ i < N`, is `≥ 0`, for arbitrary `ihcout` and noise. -/
theorem Synapse_output_nonneg (lm : Libm α) (ind : Indet α) (ihcout randNums : Int → α)
    (tdres cf : α) (totalstim nrep : Int) (spont implnt sampFreq : α) (out0 : Int → α)
    (i : Int) (h0 : 0 ≤ i) (hN : i < totalstim * nrep) :
    0 ≤ (Synapse lm ind ihcout randNums tdres cf totalstim nrep spont implnt sampFreq
          out0).1 i := by
  show 0 ≤ stageF _ _ _ _ _ _ out0 i
  rw [stageF_apply _ _ _ _ _ _ _ _ h0 hN]
  apply upsample_nonneg
  intro j
  unfold stageE
  exact stageESteps_synSampOut_nonneg _ _ _ _ _ j

/-! ## The overflow guard of stage B -/

/-- C10. Overflow-guard boundary: for an exponent argument `tmp = synstrength*ihcout[indx]`
with `tmp ≥ 400` (in particular `tmp = 400`), over the reals,
`0 < log(1 + exp tmp) - tmp ≤ exp(-tmp) ≤ exp(-400)`; the code takes the linear fallback,
`PPI = synslope/synstrength*tmp`; and the exponential form of `PPI` differs from it by at most
`|synslope/synstrength| * exp(-400)`, which is `(synslope/synstrength) * exp(-400)` when that
ratio is not negative. -/
theorem C10_overflow_guard_boundary (synstrength synslope x : ℝ)
    (h : 400 ≤ synstrength * x) :
    0 < Real.log (1 + Real.exp (synstrength * x)) - synstrength * x ∧
    Real.log (1 + Real.exp (synstrength * x)) - synstrength * x
      ≤ Real.exp (-(synstrength * x)) ∧
    Real.exp (-(synstrength * x)) ≤ Real.exp (-400) ∧
    PPI_of (Libm.mk Real.exp Real.log (fun a b : ℝ => a ^ b)) synstrength synslope x
      = synslope / synstrength * (synstrength * x) ∧
    |synslope / synstrength * Real.log (1 + Real.exp (synstrength * x))
        - PPI_of (Libm.mk Real.exp Real.log (fun a b : ℝ => a ^ b)) synstrength synslope x|
      ≤ |synslope / synstrength| * Real.exp (-400) ∧
    (0 ≤ synslope / synstrength →
      |synslope / synstrength * Real.log (1 + Real.exp (synstrength * x))
          - PPI_of (Libm.mk Real.exp Real.log (fun a b : ℝ => a ^ b)) synstrength synslope x|
        ≤ synslope / synstrength * Real.exp (-400)) := by
  have hcode : PPI_of (Libm.mk Real.exp Real.log (fun a b : ℝ => a ^ b)) synstrength synslope x
      = synslope / synstrength * (synstrength * x) := by
    unfold PPI_of
    dsimp only
    rw [if_neg (not_lt.mpr h)]
  rw [hcode]
  generalize synstrength * x = t at h
  generalize synslope / synstrength = a
  have hpos : 0 < Real.exp t := Real.exp_pos t
  have hlow : 0 < Real.log (1 + Real.exp t) - t := by
    have : Real.log (Real.exp t) < Real.log (1 + Real.exp t) :=
      Real.log_lt_log hpos (by linarith)
    rw [Real.log_exp] at this
    linarith
  have hsplit : Real.log (1 + Real.exp t) = t + Real.log (1 + Real.exp (-t)) := by
    have h1 : 1 + Real.exp t = Real.exp t * (1 + Real.exp (-t)) := by
      rw [mul_add, mul_one, ← Real.exp_add, add_neg_cancel, Real.exp_zero, add_comm]
    rw [h1, Real.log_mul hpos.ne.symm (by positivity), Real.log_exp]
  have hupp : Real.log (1 + Real.exp t) - t ≤ Real.exp (-t) := by
    have := Real.log_le_sub_one_of_pos (by positivity : 0 < 1 + Real.exp (-t))
    rw [hsplit]
    linarith
  have hmono : Real.exp (-t) ≤ Real.exp (-400) := Real.exp_le_exp.mpr (by linarith)
  have habs : |a * Real.log (1 + Real.exp t) - a * t| ≤ |a| * Real.exp (-400) := by
    rw [← mul_sub, abs_mul, abs_of_pos hlow]
    exact mul_le_mul_of_nonneg_left (hupp.trans hmono) (abs_nonneg a)
  refine ⟨hlow, hupp, hmono, rfl, habs, ?_⟩
  intro ha
  rw [abs_of_nonneg ha] at habs
  exact habs

/-- Witness for C10 at the threshold itself: `synstrength = 1`, `ihcout[indx] = 400`. -/
theorem C10_overflow_guard_boundary_witness :
    0 < Real.log (1 + Real.exp ((1 : ℝ) * 400)) - (1 : ℝ) * 400 ∧
    PPI_of (Libm.mk Real.exp Real.log (fun a b : ℝ => a ^ b)) 1 2 400
      = 2 / 1 * ((1 : ℝ) * 400) :=
  have h := C10_overflow_guard_boundary 1 2 400 (by norm_num)
  ⟨h.1, h.2.2.2.1⟩

/-! ## Two runs of a loop -/

/-- Two loops over the same range whose bodies agree on that range compute the same state. -/
theorem forLoop_congr {σ : Type} (body body2 : Int → σ → σ) (hi : Int) (n : Nat) :
    ∀ (lo : Int) (s : σ), (hi - lo).toNat = n →
      (∀ i t, lo ≤ i → i < hi → body i t = body2 i t) →
      forLoop lo hi body s = forLoop lo hi body2 s := by
  induction n with
  | zero =>
    intro lo s hn _
    rw [forLoop_of_le _ _ _ _ (by omega), forLoop_of_le _ _ _ _ (by omega)]
  | succ n ih =>
    intro lo s hn hb
    rw [forLoop_step _ _ _ _ (by omega), forLoop_step _ _ body2 _ (by omega),
      hb lo s (le_refl _) (by omega)]
    exact ih (lo + 1) _ (by omega) (fun i t h1 h2 => hb i t (by omega) h2)

/-- A relation between two states that every pair of iterations preserves is preserved by
the two loops. -/
theorem forLoop_rel {σ τ : Type} (R : σ → τ → Prop) (body : Int → σ → σ)
    (body2 : Int → τ → τ) (hi : Int)
    (hstep : ∀ i t u, R t u → R (body i t) (body2 i u)) (n : Nat) :
    ∀ (lo : Int) (s : σ) (u : τ), (hi - lo).toNat = n → R s u →
      R (forLoop lo hi body s) (forLoop lo hi body2 u) := by
  induction n with
  | zero =>
    intro lo s u hn h0
    rw [forLoop_of_le _ _ _ _ (by omega), forLoop_of_le _ _ _ _ (by omega)]
    exact h0
  | succ n ih =>
    intro lo s u hn h0
    rw [forLoop_step _ _ _ _ (by omega), forLoop_step _ _ body2 _ (by omega)]
    exact ih (lo + 1) _ _ (by omega) (hstep lo s u h0)

/-! ## The noise sequence -/

/-- One iteration of the stage E loop reads the noise at the loop index only. -/
theorem stageEBody_noise (sampIHC randNums randNums2 : Int → α) (implnt sampFreq : α)
    (indx : Int) (s : PLState α) (h : randNums indx = randNums2 indx) :
    stageEBody sampIHC randNums implnt sampFreq indx s
      = stageEBody sampIHC randNums2 implnt sampFreq indx s := by
  unfold stageEBody
  rw [h]

/-- C11. Noise coverage: with `K = floor((totalstim*nrep + 2*delay)*tdres*sampFreq)` and
`delay = floor(7500/(cf/1000))`, two calls whose noise sequences agree at the indices
`0 .. K-1` and whose other inputs are identical return the same output buffer and value (so
`K` noise samples suffice); and each index `0 ≤ k < K` is read, the noise sample `randNums[k]`
entering `sout1[k] = max(0, sampIHC[k] + randNums[k] - alpha1*I1)`. -/
theorem C11_noise_coverage (lm : Libm α) (ind : Indet α) (ihcout randNums randNums2 : Int → α)
    (tdres cf : α) (totalstim nrep : Int) (spont implnt sampFreq : α) (out0 : Int → α)
    (hagree : ∀ k, 0 ≤ k →
      k < stageEBound totalstim nrep (delaypoint cf) tdres sampFreq →
      randNums k = randNums2 k) :
    Synapse lm ind ihcout randNums tdres cf totalstim nrep spont implnt sampFreq out0
      = Synapse lm ind ihcout randNums2 tdres cf totalstim nrep spont implnt sampFreq out0 ∧
    (∀ (sampIHC : Int → α) (k : Int), 0 ≤ k →
      k < stageEBound totalstim nrep (delaypoint cf) tdres sampFreq →
      (stageE sampIHC randNums implnt sampFreq tdres totalstim nrep (delaypoint cf)).sout1 k
        = max 0 (sampIHC k + randNums k
            - alpha1 * (stageESteps sampIHC randNums implnt sampFreq k).I1)) := by
  constructor
  · have hE : ∀ sampIHC : Int → α,
        stageE sampIHC randNums implnt sampFreq tdres totalstim nrep (delaypoint cf)
          = stageE sampIHC randNums2 implnt sampFreq tdres totalstim nrep (delaypoint cf) := by
      intro sampIHC
      unfold stageE stageESteps
      exact forLoop_congr _ _ _ _ 0 _ rfl
        (fun i t h0 h1 => stageEBody_noise sampIHC randNums randNums2 implnt sampFreq i t
          (hagree i h0 h1))
    unfold Synapse
    simp only [hE]
  · intro sampIHC k h0 hk
    obtain ⟨n, rfl⟩ := Int.eq_ofNat_of_zero_le h0
    obtain ⟨m, hm⟩ := Int.eq_ofNat_of_zero_le (by omega :
      0 ≤ stageEBound totalstim nrep (delaypoint cf) tdres sampFreq)
    unfold stageE
    rw [hm, (stageESteps_entries sampIHC randNums implnt sampFreq n m (by omega)).1,
      cmax_zero_eq]

/-- Witness for C11: `N = 30`, `cf = 8 MHz` (delay 0), `tdres*sampFreq = 1/10`, so `K = 3`;
the two noise sequences differ from index 3 on. -/
theorem C11_noise_coverage_witness :
    Synapse (Libm.mk (fun x : ℚ => x) (fun x : ℚ => x) (fun x _ : ℚ => x)) (Indet.mk 0 0 0)
        (fun i : Int => (i : ℚ)) (fun _ : Int => (1 : ℚ)) (1 / 100000) 8000000 30 1 100 0
        10000 calloc
      = Synapse (Libm.mk (fun x : ℚ => x) (fun x : ℚ => x) (fun x _ : ℚ => x)) (Indet.mk 0 0 0)
        (fun i : Int => (i : ℚ)) (fun k : Int => if k < 3 then (1 : ℚ) else 2) (1 / 100000)
        8000000 30 1 100 0 10000 calloc :=
  have hdel : delaypoint (8000000 : ℚ) = 0 := by
    unfold delaypoint
    rw [Int.floor_eq_iff]
    norm_num
  have hK : stageEBound 30 1 0 (1 / 100000 : ℚ) 10000 = 3 := by
    unfold stageEBound
    rw [Int.floor_eq_iff]
    norm_num
  (C11_noise_coverage _ _ _ (fun _ : Int => (1 : ℚ)) (fun k : Int => if k < 3 then (1 : ℚ) else 2)
    (1 / 100000) 8000000 30 1 100 0 10000 calloc
    (fun k _ hk => by
      rw [hdel, hK] at hk
      simp [hk])).1

/-! ## The spontaneous-rate class -/

theorem cmin_eq (a b : α) : cmin a b = min a b := by
  unfold cmin
  by_cases h : a < b
  · rw [if_pos h, min_eq_left h.le]
  · rw [if_neg h, min_eq_right (not_lt.mp h)]

/-- C12. Spontaneous-rate class selection: `cf_factor` is assigned exactly when `spont` is
100, 4 or 0.1, with the values `min(800, 10^(0.29*cf/1000 + 0.7))`,
`min(50, 2.5e-4*cf*4 + 0.2)` and `min(1.0, 2.5e-4*cf*0.1 + 0.15)`; for any other `spont` no
assignment runs and stage A goes on with the value the local happened to hold. -/
theorem C12_cf_factor_selection (lm : Libm α) (ind : Indet α) (spont cf implnt : α) :
    ((cf_factor_sel lm spont cf).isSome ↔ (spont = 100 ∨ spont = 4 ∨ spont = 0.1)) ∧
    (spont = 100 →
      cf_factor_sel lm spont cf = some (min 800 (lm.pow 10 (0.29 * cf / 1000 + 0.7)))) ∧
    (spont = 4 → cf_factor_sel lm spont cf = some (min 50 (2.5e-4 * cf * 4 + 0.2))) ∧
    (spont = 0.1 → cf_factor_sel lm spont cf = some (min 1.0 (2.5e-4 * cf * 0.1 + 0.15))) ∧
    (spont ≠ 100 → spont ≠ 4 → spont ≠ 0.1 →
      cf_factor_sel lm spont cf = none ∧
      (stageA lm ind cf spont implnt).cf_factor = ind.cf_factor) := by
  have e3 : (1e3 : α) = 1000 := by norm_num
  have v100 : spont = 100 →
      cf_factor_sel lm spont cf = some (min 800 (lm.pow 10 (0.29 * cf / 1000 + 0.7))) := by
    intro h
    have h2 : ¬ ((100 : α) = 4) := by norm_num
    have h3 : ¬ ((100 : α) = 0.1) := by norm_num
    unfold cf_factor_sel
    simp only [h, h2, h3, if_true, if_false, cmin_eq, e3]
  have v4 : spont = 4 → cf_factor_sel lm spont cf = some (min 50 (2.5e-4 * cf * 4 + 0.2)) := by
    intro h
    have h3 : ¬ ((4 : α) = 0.1) := by norm_num
    unfold cf_factor_sel
    simp only [h, h3, if_true, if_false, cmin_eq]
  have v01 : spont = 0.1 →
      cf_factor_sel lm spont cf = some (min 1.0 (2.5e-4 * cf * 0.1 + 0.15)) := by
    intro h
    unfold cf_factor_sel
    simp only [h, if_true, cmin_eq]
  have vnone : spont ≠ 100 → spont ≠ 4 → spont ≠ 0.1 → cf_factor_sel lm spont cf = none := by
    intro h1 h2 h3
    unfold cf_factor_sel
    simp only [h1, h2, h3, if_false]
  refine ⟨?_, v100, v4, v01, ?_⟩
  · constructor
    · intro h
      by_contra hne
      push_neg at hne
      rw [vnone hne.1 hne.2.1 hne.2.2] at h
      exact Bool.false_ne_true h
    · rintro (h | h | h)
      · rw [v100 h]
        rfl
      · rw [v4 h]
        rfl
      · rw [v01 h]
        rfl
  · intro h1 h2 h3
    refine ⟨vnone h1 h2 h3, ?_⟩
    show (cf_factor_sel lm spont cf).getD ind.cf_factor = ind.cf_factor
    rw [vnone h1 h2 h3]
    rfl

/-- Witness for C12: the class `spont = 4` at `cf = 1000` over the rationals. -/
theorem C12_cf_factor_selection_witness :
    cf_factor_sel (Libm.mk (fun x : ℚ => x) (fun x : ℚ => x) (fun x _ : ℚ => x)) 4 1000
      = some (min 50 (2.5e-4 * 1000 * 4 + 0.2)) :=
  (C12_cf_factor_selection (Libm.mk (fun x : ℚ => x) (fun x : ℚ => x) (fun x _ : ℚ => x))
    (Indet.mk 0 0 0) 4 1000 1).2.2.1 rfl

/-! ## The complex quotient -/

theorem COMPLEX_eq (a b : COMPLEX α) (hx : a.x = b.x) (hy : a.y = b.y) : a = b := by
  cases a
  cases b
  simp only [COMPLEX.mk.injEq]
  exact ⟨hx, hy⟩

/-- C14. The function `compdiv` is the complex quotient: for a denominator with
`de.x^2 + de.y^2 ≠ 0`, `compdiv(ne, de)` has the components
`(ne.x*de.x + ne.y*de.y)/|de|^2` and `(ne.y*de.x - ne.x*de.y)/|de|^2`, and it inverts
`compprod`: `compprod(compdiv(ne, de), de) = ne` and `compdiv(compprod(a, de), de) = a`. -/
theorem C14_compdiv_quotient (ne de a : COMPLEX α) (hde : de.x ^ 2 + de.y ^ 2 ≠ 0) :
    compdiv ne de
      = COMPLEX.mk ((ne.x * de.x + ne.y * de.y) / (de.x ^ 2 + de.y ^ 2))
          ((ne.y * de.x - ne.x * de.y) / (de.x ^ 2 + de.y ^ 2)) ∧
    compprod (compdiv ne de) de = ne ∧
    compdiv (compprod a de) de = a := by
  have hd : de.x * de.x + de.y * de.y ≠ 0 := by
    rw [← sq, ← sq]
    exact hde
  refine ⟨?_, ?_, ?_⟩
  · apply COMPLEX_eq
    · show (ne.x * de.x + ne.y * de.y) / (de.x * de.x + de.y * de.y) = _
      rw [← sq, ← sq]
    · show (ne.y * de.x - ne.x * de.y) / (de.x * de.x + de.y * de.y) = _
      rw [← sq, ← sq]
  · apply COMPLEX_eq
    · show (ne.x * de.x + ne.y * de.y) / (de.x * de.x + de.y * de.y) * de.x
        - (ne.y * de.x - ne.x * de.y) / (de.x * de.x + de.y * de.y) * de.y = ne.x
      field_simp
      ring
    · show (ne.x * de.x + ne.y * de.y) / (de.x * de.x + de.y * de.y) * de.y
        + (ne.y * de.x - ne.x * de.y) / (de.x * de.x + de.y * de.y) * de.x = ne.y
      field_simp
      ring
  · apply COMPLEX_eq
    · show ((a.x * de.x - a.y * de.y) * de.x + (a.x * de.y + a.y * de.x) * de.y)
        / (de.x * de.x + de.y * de.y) = a.x
      field_simp
      ring
    · show ((a.x * de.y + a.y * de.x) * de.x - (a.x * de.x - a.y * de.y) * de.y)
        / (de.x * de.x + de.y * de.y) = a.y
      field_simp
      ring

/-- Witness for C14: `ne = 1 + 2i`, `de = 3 + 4i`, `a = 5 - i` over the rationals. -/
theorem C14_compdiv_quotient_witness :
    compprod (compdiv (COMPLEX.mk (1 : ℚ) 2) (COMPLEX.mk 3 4)) (COMPLEX.mk 3 4)
      = COMPLEX.mk 1 2 ∧
    compdiv (compprod (COMPLEX.mk (5 : ℚ) (-1)) (COMPLEX.mk 3 4)) (COMPLEX.mk 3 4)
      = COMPLEX.mk 5 (-1) :=
  (C14_compdiv_quotient (COMPLEX.mk (1 : ℚ) 2) (COMPLEX.mk 3 4) (COMPLEX.mk 5 (-1))
    (by norm_num)).2

/-! ## The slow branch and the noise -/

/-- The second sum of the exact implementation does not depend on `sout1`. -/
theorem exactSums_snd (a a2 b : Int → α) (bw : α) (k : Int) :
    (exactSums a b bw k).2 = (exactSums a2 b bw k).2 := by
  unfold exactSums
  exact forLoop_rel (fun (I J : α × α) => I.2 = J.2) _ _ (k + 1)
    (fun j I J h => by
      show I.2 + _ = J.2 + _
      rw [h])
    _ 0 (0, 0) (0, 0) rfl rfl

/-- One iteration of the stage E loop, run with two noise sequences from two states that
agree on the slow branch (`sout2`, `I2`, `n1`, `n2`, `n3`, `k`), gives two states that agree
on the slow branch. -/
theorem stageEBody_slow (sampIHC randNums randNums2 : Int → α) (implnt sampFreq : α)
    (indx : Int) (s u : PLState α)
    (h : s.sout2 = u.sout2 ∧ s.I2 = u.I2 ∧ s.n1 = u.n1 ∧ s.n2 = u.n2 ∧ s.n3 = u.n3 ∧
      s.k = u.k) :
    (stageEBody sampIHC randNums implnt sampFreq indx s).sout2
        = (stageEBody sampIHC randNums2 implnt sampFreq indx u).sout2 ∧
    (stageEBody sampIHC randNums implnt sampFreq indx s).I2
        = (stageEBody sampIHC randNums2 implnt sampFreq indx u).I2 ∧
    (stageEBody sampIHC randNums implnt sampFreq indx s).n1
        = (stageEBody sampIHC randNums2 implnt sampFreq indx u).n1 ∧
    (stageEBody sampIHC randNums implnt sampFreq indx s).n2
        = (stageEBody sampIHC randNums2 implnt sampFreq indx u).n2 ∧
    (stageEBody sampIHC randNums implnt sampFreq indx s).n3
        = (stageEBody sampIHC randNums2 implnt sampFreq indx u).n3 ∧
    (stageEBody sampIHC randNums implnt sampFreq indx s).k
        = (stageEBody sampIHC randNums2 implnt sampFreq indx u).k := by
  obtain ⟨s1, s2, s3, m1, m2, m3, m4, m5, n1, n2, n3, I1, I2, k⟩ := s
  obtain ⟨t1, t2, t3, p1, p2, p3, p4, p5, q1, q2, q3, J1, J2, l⟩ := u
  obtain ⟨h1, h2, h3, h4, h5, h6⟩ := h
  simp only at h1 h2 h3 h4 h5 h6
  subst h1 h2 h3 h4 h5 h6
  unfold stageEBody
  by_cases e1 : implnt = 1
  · have e0 : implnt ≠ 0 := by rw [e1]; exact one_ne_zero
    simp only [if_pos e1, if_neg e0]
    refine ⟨rfl, ?_, rfl, rfl, rfl, rfl⟩
    exact exactSums_snd _ _ _ _ _
  · by_cases e0 : implnt = 0
    · simp only [if_neg e1, if_pos e0]
      unfold approxStep approxM approxN
      dsimp only
      split_ifs <;> exact ⟨rfl, rfl, rfl, rfl, rfl, rfl⟩
    · dsimp only
      rw [if_neg e1, if_neg e1, if_neg e0, if_neg e0]
      exact ⟨rfl, rfl, rfl, rfl, rfl, rfl⟩

/-- C20. The slow branch is independent of the noise: for two noise sequences and otherwise
identical inputs, with either implementation, the buffer `sout2` and the feedback `I2` are the
same in both runs after any number of stage E iterations, hence at the end of stage E and at
every index `k < K`. -/
theorem C20_slow_branch_noise_independent (sampIHC randNums randNums2 : Int → α)
    (implnt sampFreq tdres : α) (totalstim nrep delay : Int) :
    (∀ n : Int,
      (stageESteps sampIHC randNums implnt sampFreq n).sout2
          = (stageESteps sampIHC randNums2 implnt sampFreq n).sout2 ∧
      (stageESteps sampIHC randNums implnt sampFreq n).I2
          = (stageESteps sampIHC randNums2 implnt sampFreq n).I2) ∧
    (∀ k : Int,
      (stageE sampIHC randNums implnt sampFreq tdres totalstim nrep delay).sout2 k
        = (stageE sampIHC randNums2 implnt sampFreq tdres totalstim nrep delay).sout2 k) ∧
    (stageE sampIHC randNums implnt sampFreq tdres totalstim nrep delay).I2
      = (stageE sampIHC randNums2 implnt sampFreq tdres totalstim nrep delay).I2 := by
  have hrel : ∀ n : Int,
      (stageESteps sampIHC randNums implnt sampFreq n).sout2
          = (stageESteps sampIHC randNums2 implnt sampFreq n).sout2 ∧
      (stageESteps sampIHC randNums implnt sampFreq n).I2
          = (stageESteps sampIHC randNums2 implnt sampFreq n).I2 := by
    intro n
    have := forLoop_rel
      (fun (s u : PLState α) => s.sout2 = u.sout2 ∧ s.I2 = u.I2 ∧ s.n1 = u.n1 ∧
        s.n2 = u.n2 ∧ s.n3 = u.n3 ∧ s.k = u.k)
      (stageEBody sampIHC randNums implnt sampFreq)
      (stageEBody sampIHC randNums2 implnt sampFreq) n
      (fun i s u h => stageEBody_slow sampIHC randNums randNums2 implnt sampFreq i s u h)
      _ 0 stageEInit stageEInit rfl ⟨rfl, rfl, rfl, rfl, rfl, rfl⟩
    exact ⟨this.1, this.2.1⟩
  refine ⟨hrel, ?_, ?_⟩
  · intro k
    unfold stageE
    rw [(hrel _).1]
  · unfold stageE
    exact (hrel _).2

/-! ## The bootstrap of the approximate implementation -/

theorem atz_of_nonneg (buf : Int → α) (i : Int) (h : 0 ≤ i) : atz buf i = buf i := by
  unfold atz
  rw [if_neg (by omega)]

theorem atz_of_neg (buf : Int → α) (i : Int) (h : i < 0) : atz buf i = 0 := by
  unfold atz
  rw [if_pos h]

/-- The cascade `n1, n2, n3` of the source is the uniform cascade, at every `k ≥ 0`. -/
theorem approxN_eq_uniform (s : PLState α) (hk : 0 ≤ s.k) : approxN s = approxN_uniform s := by
  unfold approxN approxN_uniform
  dsimp only
  by_cases h0 : s.k = 0
  · rw [if_pos h0]
    simp only [h0, atz_of_neg _ (0 - 1) (by decide), atz_of_neg _ (0 - 2) (by decide),
      mul_zero, sub_zero, add_zero, zero_add]
  · rw [if_neg h0]
    by_cases h1 : s.k = 1
    · rw [if_pos h1]
      simp only [h1, atz_of_neg _ (1 - 2) (by decide), atz_of_nonneg _ (1 - 1) (by decide),
        mul_zero, sub_zero, add_zero]
    · rw [if_neg h1]
      simp only [atz_of_nonneg _ (s.k - 1) (by omega), atz_of_nonneg _ (s.k - 2) (by omega)]

/-- The cascade `m1 .. m5` of the source is the uniform cascade, at every `k ≥ 0`. -/
theorem approxM_eq_uniform (s : PLState α) (hk : 0 ≤ s.k) : approxM s = approxM_uniform s := by
  unfold approxM approxM_uniform
  dsimp only
  by_cases h0 : s.k = 0
  · rw [if_pos h0]
    simp only [h0, atz_of_neg _ (0 - 1) (by decide), atz_of_neg _ (0 - 2) (by decide),
      mul_zero, sub_zero, add_zero, zero_add]
  · rw [if_neg h0]
    by_cases h1 : s.k = 1
    · rw [if_pos h1]
      simp only [h1, atz_of_neg _ (1 - 2) (by decide), atz_of_nonneg _ (1 - 1) (by decide),
        mul_zero, sub_zero, add_zero]
    · rw [if_neg h1]
      simp only [atz_of_nonneg _ (s.k - 1) (by omega), atz_of_nonneg _ (s.k - 2) (by omega)]

theorem approxStep_eq_uniform (s : PLState α) (hk : 0 ≤ s.k) :
    approxStep s = approxStep_uniform s := by
  unfold approxStep approxStep_uniform
  dsimp only
  rw [approxN_eq_uniform s hk, approxM_eq_uniform]
  exact hk

theorem stageEBody_eq_uniform (sampIHC randNums : Int → α) (sampFreq : α) (indx : Int)
    (s : PLState α) (hk : 0 ≤ s.k) :
    stageEBody sampIHC randNums 0 sampFreq indx s
      = stageEBody_uniform sampIHC randNums indx s := by
  unfold stageEBody stageEBody_uniform
  have h01 : ¬ ((0 : α) = 1) := zero_ne_one
  dsimp only
  rw [if_neg h01, if_pos rfl, approxStep_eq_uniform]
  exact hk

/-- C18. Approximate adaptation bootstrap (`implnt == 0`): at every `k ≥ 0`, the `k == 0`
and `k == 1` formulas included, the cascades `n1..n3` and `m1..m5` of the source are the
`k ≥ 2` second-order recursion with every sample at a negative index taken as 0; hence for
every input the approximate path is the uniform cascade started from zero history, after any
number of iterations; and after the first iteration `I1 = 0.2*sout1[0]` and
`I2 = 1e-3*sout2[0]`. -/
theorem C18_approx_bootstrap (sampIHC randNums : Int → α) (sampFreq : α) :
    (∀ s : PLState α, 0 ≤ s.k →
      approxN s = approxN_uniform s ∧ approxM s = approxM_uniform s ∧
      approxStep s = approxStep_uniform s) ∧
    (∀ n : Nat, stageESteps sampIHC randNums 0 sampFreq n
      = stageESteps_uniform sampIHC randNums n) ∧
    (stageESteps sampIHC randNums 0 sampFreq 1).I1
      = 0.2 * (stageESteps sampIHC randNums 0 sampFreq 1).sout1 0 ∧
    (stageESteps sampIHC randNums 0 sampFreq 1).I2
      = 1e-3 * (stageESteps sampIHC randNums 0 sampFreq 1).sout2 0 := by
  have hsteps : ∀ n : Nat, stageESteps sampIHC randNums 0 sampFreq n
      = stageESteps_uniform sampIHC randNums n := by
    intro n
    induction n with
    | zero =>
      unfold stageESteps stageESteps_uniform
      rw [Nat.cast_zero, forLoop_of_le _ _ _ _ (le_refl _), forLoop_of_le _ _ _ _ (le_refl _)]
    | succ n ih =>
      have hk : 0 ≤ (stageESteps sampIHC randNums 0 sampFreq n).k := by
        rw [stageESteps_k]
        omega
      rw [Nat.cast_succ, stageESteps_succ, stageEBody_eq_uniform _ _ _ _ _ hk, ih]
      unfold stageESteps_uniform
      rw [forLoop_last _ _ _ _ (by omega)]
  have hone : stageESteps sampIHC randNums 0 sampFreq 1
      = stageEBody sampIHC randNums 0 sampFreq 0 stageEInit := by
    have := stageESteps_succ sampIHC randNums 0 sampFreq 0
    rw [Nat.cast_zero, zero_add, stageESteps_zero] at this
    exact this
  refine ⟨fun s hk => ⟨approxN_eq_uniform s hk, approxM_eq_uniform s hk,
    approxStep_eq_uniform s hk⟩, hsteps, ?_, ?_⟩
  · rw [hone]
    unfold stageEBody
    have h01 : ¬ ((0 : α) = 1) := zero_ne_one
    dsimp only
    rw [if_neg h01, if_pos rfl]
    unfold approxStep approxM approxN stageEInit
    dsimp only
    simp only [if_true, bufSet_same]
  · rw [hone]
    unfold stageEBody
    have h01 : ¬ ((0 : α) = 1) := zero_ne_one
    dsimp only
    rw [if_neg h01, if_pos rfl]
    unfold approxStep approxM approxN stageEInit
    dsimp only
    simp only [if_true, bufSet_same]
    norm_num

/-! ## Stage A and stage B -/

/-- The relations between the stage A scalars that stage B relies on (lines 139-180). -/
theorem stageA_eqs (lm : Libm α) (ind : Indet α) (cf spont implnt : α) :
    (stageA lm ind cf spont implnt).cf_factor = (cf_factor_sel lm spont cf).getD ind.cf_factor ∧
    (stageA lm ind cf spont implnt).PImax = 0.6 ∧
    (stageA lm ind cf spont implnt).kslope
      = (1 + 50.0) / (5 + 50.0) * (stageA lm ind cf spont implnt).cf_factor * 20.0
        * (stageA lm ind cf spont implnt).PImax ∧
    (stageA lm ind cf spont implnt).Ass = 800 * (1 + cf / 100e3) ∧
    (stageA lm ind cf spont implnt).Asp = (Asp_sel spont implnt).getD ind.Asp ∧
    (stageA lm ind cf spont implnt).Aon = 3 * (stageA lm ind cf spont implnt).Ass ∧
    (stageA lm ind cf spont implnt).Prest
      = (stageA lm ind cf spont implnt).PImax / (stageA lm ind cf spont implnt).Aon
        * (stageA lm ind cf spont implnt).Asp ∧
    (stageA lm ind cf spont implnt).CG
      = ((stageA lm ind cf spont implnt).Asp
          * ((stageA lm ind cf spont implnt).Aon - (stageA lm ind cf spont implnt).Asp))
        / ((stageA lm ind cf spont implnt).Aon * (stageA lm ind cf spont implnt).Prest
          * (1 - (stageA lm ind cf spont implnt).Asp / (stageA lm ind cf spont implnt).Ass)) ∧
    (stageA lm ind cf spont implnt).PG
      = 1 / ((stageA lm ind cf spont implnt).CG / (stageA lm ind cf spont implnt).Ass
          - 1 / (stageA lm ind cf spont implnt).PImax
          - 1 / (stageA lm ind cf spont implnt).PL) ∧
    (stageA lm ind cf spont implnt).CI
      = (stageA lm ind cf spont implnt).Asp / (stageA lm ind cf spont implnt).Prest ∧
    (stageA lm ind cf spont implnt).CL
      = (stageA lm ind cf spont implnt).CI
        * ((stageA lm ind cf spont implnt).Prest + (stageA lm ind cf spont implnt).PL)
        / (stageA lm ind cf spont implnt).PL ∧
    (stageA lm ind cf spont implnt).vsat
      = (if (stageA lm ind cf spont implnt).kslope ≥ 0
          then (stageA lm ind cf spont implnt).kslope + (stageA lm ind cf spont implnt).Prest
          else ind.vsat) ∧
    (stageA lm ind cf spont implnt).synstrength
      = (if lm.log 2 * (stageA lm ind cf spont implnt).vsat
              / (stageA lm ind cf spont implnt).Prest < 400
          then lm.log (lm.exp (lm.log 2 * (stageA lm ind cf spont implnt).vsat
              / (stageA lm ind cf spont implnt).Prest) - 1)
          else lm.log 2 * (stageA lm ind cf spont implnt).vsat
              / (stageA lm ind cf spont implnt).Prest) ∧
    (stageA lm ind cf spont implnt).synslope
      = (stageA lm ind cf spont implnt).Prest / lm.log 2
        * (stageA lm ind cf spont implnt).synstrength :=
  ⟨rfl, rfl, rfl, rfl, rfl, rfl, rfl, rfl, rfl, rfl, rfl, rfl, rfl, rfl⟩

/-- What one iteration of the stage B loop leaves in `CI`, `CL`, `exponOut[k]` and `k`, with
`PPI` the permeability of lines 185-187 and `CIraw`, `CLraw` the Euler updates of lines
190-191. -/
theorem stageBBody_fields (lm : Libm α) (p : AdaptParams α) (ihcout : Int → α) (tdres : α)
    (indx : Int) (s : ExpState α) :
    (stageBBody lm p ihcout tdres indx s).CI
      = (if s.CI + (tdres / p.VI)
              * (-(PPI_of lm p.synstrength p.synslope (ihcout indx)) * s.CI
                  + p.PL * (s.CL - s.CI)) < 0
          then p.CG / (PPI_of lm p.synstrength p.synslope (ihcout indx)
            * (1 / p.PG + 1 / p.PL + 1 / PPI_of lm p.synstrength p.synslope (ihcout indx)))
          else s.CI + (tdres / p.VI)
              * (-(PPI_of lm p.synstrength p.synslope (ihcout indx)) * s.CI
                  + p.PL * (s.CL - s.CI))) ∧
    (stageBBody lm p ihcout tdres indx s).CL
      = (if s.CI + (tdres / p.VI)
              * (-(PPI_of lm p.synstrength p.synslope (ihcout indx)) * s.CI
                  + p.PL * (s.CL - s.CI)) < 0
          then (stageBBody lm p ihcout tdres indx s).CI
            * (PPI_of lm p.synstrength p.synslope (ihcout indx) + p.PL) / p.PL
          else s.CL + (tdres / p.VL) * (-p.PL * (s.CL - s.CI) + p.PG * (p.CG - s.CL))) ∧
    (stageBBody lm p ihcout tdres indx s).exponOut
      = bufSet s.exponOut s.k ((stageBBody lm p ihcout tdres indx s).CI
          * PPI_of lm p.synstrength p.synslope (ihcout indx)) ∧
    (stageBBody lm p ihcout tdres indx s).k = s.k + 1 :=
  ⟨rfl, rfl, rfl, rfl⟩

/-- Over the reals, with `synslope = Prest/log(2)*synstrength` (line 180), `Prest > 0` and
`synstrength ≠ 0`, the permeability `PPI` of lines 185-187 is positive for every input. -/
theorem PPI_of_pos (synstrength synslope Prest x : ℝ)
    (hsl : synslope = Prest / Real.log 2 * synstrength) (hP : 0 < Prest)
    (hss : synstrength ≠ 0) :
    0 < PPI_of (Libm.mk Real.exp Real.log (fun a b : ℝ => a ^ b)) synstrength synslope x := by
  have hlog2 : 0 < Real.log 2 := Real.log_pos (by norm_num)
  have hratio : synslope / synstrength = Prest / Real.log 2 := by
    rw [hsl, mul_div_assoc, div_self hss, mul_one]
  unfold PPI_of
  dsimp only
  rw [hratio]
  apply mul_pos (div_pos hP hlog2)
  by_cases h : synstrength * x < 400
  · rw [if_pos h]
    exact Real.log_pos (by linarith [Real.exp_pos (synstrength * x)])
  · rw [if_neg h]
    linarith

/-- Over the reals, with `CG > 0`, `PG > 0`, `PL > 0`, `Prest > 0` and `synstrength ≠ 0` for
the constants derived by stage A: `PPI > 0` for every input sample; after every stage B step
`CI ≥ 0`, and `CI > 0` when the clamp branch was taken; and every `exponOut[k] = CI*PPI` is
`≥ 0`. -/
theorem fast_pool_nonneg_real (lm : Libm ℝ)
    (hlm : lm = Libm.mk Real.exp Real.log (fun a b : ℝ => a ^ b)) (ind : Indet ℝ)
    (cf spont implnt : ℝ) (p : AdaptParams ℝ) (hp : p = stageA lm ind cf spont implnt)
    (hCG : 0 < p.CG) (hPG : 0 < p.PG) (hPL : 0 < p.PL) (hPrest : 0 < p.Prest)
    (hss : p.synstrength ≠ 0) (ihcout : Int → ℝ) (tdres : ℝ) :
    (∀ x, 0 < PPI_of lm p.synstrength p.synslope x) ∧
    (∀ (indx : Int) (s : ExpState ℝ),
      0 ≤ (stageBBody lm p ihcout tdres indx s).CI ∧
      (s.CI + (tdres / p.VI)
          * (-(PPI_of lm p.synstrength p.synslope (ihcout indx)) * s.CI
              + p.PL * (s.CL - s.CI)) < 0 →
        0 < (stageBBody lm p ihcout tdres indx s).CI) ∧
      0 ≤ (stageBBody lm p ihcout tdres indx s).exponOut s.k) ∧
    (∀ totalstim nrep : Int, 1 ≤ totalstim * nrep →
      0 ≤ (stageB lm p ihcout tdres totalstim nrep).CI) ∧
    (∀ (totalstim nrep k : Int), 0 ≤ k → k < totalstim * nrep →
      0 ≤ (stageB lm p ihcout tdres totalstim nrep).exponOut k) := by
  have hsl : p.synslope = p.Prest / Real.log 2 * p.synstrength := by
    rw [hp, hlm]
    exact (stageA_eqs _ ind cf spont implnt).2.2.2.2.2.2.2.2.2.2.2.2.2
  have hPPI : ∀ x, 0 < PPI_of lm p.synstrength p.synslope x := by
    intro x
    rw [hlm]
    exact PPI_of_pos _ _ _ x hsl hPrest hss
  have hbody : ∀ (indx : Int) (s : ExpState ℝ),
      0 ≤ (stageBBody lm p ihcout tdres indx s).CI ∧
      (s.CI + (tdres / p.VI)
          * (-(PPI_of lm p.synstrength p.synslope (ihcout indx)) * s.CI
              + p.PL * (s.CL - s.CI)) < 0 →
        0 < (stageBBody lm p ihcout tdres indx s).CI) ∧
      0 ≤ (stageBBody lm p ihcout tdres indx s).exponOut s.k := by
    intro indx s
    have hf := stageBBody_fields lm p ihcout tdres indx s
    have hP := hPPI (ihcout indx)
    have hclamp : 0 < p.CG / (PPI_of lm p.synstrength p.synslope (ihcout indx)
        * (1 / p.PG + 1 / p.PL + 1 / PPI_of lm p.synstrength p.synslope (ihcout indx))) := by
      have h1 : 0 < 1 / p.PG := one_div_pos.mpr hPG
      have h2 : 0 < 1 / p.PL := one_div_pos.mpr hPL
      have h3 : 0 < 1 / PPI_of lm p.synstrength p.synslope (ihcout indx) := one_div_pos.mpr hP
      exact div_pos hCG (mul_pos hP (by linarith))
    have hCI0 : 0 ≤ (stageBBody lm p ihcout tdres indx s).CI := by
      rw [hf.1]
      split_ifs with h
      · exact hclamp.le
      · exact not_lt.mp h
    refine ⟨hCI0, ?_, ?_⟩
    · intro hfire
      rw [hf.1, if_pos hfire]
      exact hclamp
    · rw [hf.2.2.1, bufSet_same]
      exact mul_nonneg hCI0 hP.le
  refine ⟨hPPI, hbody, ?_, ?_⟩
  · intro totalstim nrep hN
    unfold stageB
    have hsplit : totalstim * nrep = (totalstim * nrep - 1) + 1 := by ring
    rw [hsplit, forLoop_last _ _ _ _ (by omega)]
    exact (hbody _ _).1
  · intro totalstim nrep k h0 hk
    unfold stageB
    have := forLoop_range
      (fun i (t : ExpState ℝ) => t.k = i ∧ ∀ j, 0 ≤ j → j < i → 0 ≤ t.exponOut j)
      (stageBBody lm p ihcout tdres) 0 (totalstim * nrep)
      { CI := p.CI, CL := p.CL, exponOut := calloc, k := 0 } (by omega)
      (by
        intro i t hi0 _ ht
        have hf := stageBBody_fields lm p ihcout tdres i t
        refine ⟨by rw [hf.2.2.2, ht.1], ?_⟩
        intro j hj0 hj
        by_cases hji : j = t.k
        · rw [hji]
          exact (hbody i t).2.2
        · rw [hf.2.2.1, bufSet_other _ _ _ _ hji]
          exact ht.2 j hj0 (by
            have := ht.1
            omega))
      ⟨rfl, fun j hj0 hj => by omega⟩
    exact this.2 k h0 hk

/-- Witness for C18: the first iteration, entered with `k = 0`. -/
theorem C18_approx_bootstrap_witness :
    approxStep (stageEInit : PLState ℚ) = approxStep_uniform stageEInit :=
  ((C18_approx_bootstrap (fun i : Int => (i : ℚ)) (fun _ : Int => (1 : ℚ)) 10000).1
    stageEInit (le_refl _)).2.2

/-- The value of `k` after the stage E loop, for any bound. -/
theorem stageE_k_max (sampIHC randNums : Int → α) (implnt sampFreq tdres : α)
    (totalstim nrep delay : Int) :
    (stageE sampIHC randNums implnt sampFreq tdres totalstim nrep delay).k
      = max (stageEBound totalstim nrep delay tdres sampFreq) 0 := by
  by_cases hK : 0 ≤ stageEBound totalstim nrep delay tdres sampFreq
  · rw [stageE_k _ _ _ _ _ _ _ _ hK, max_eq_left hK]
  · unfold stageE stageESteps
    rw [forLoop_of_le _ _ _ _ (by omega), max_eq_right (by omega)]
    rfl

/-- The accesses logged for a loop are those of its iterations. -/
theorem mem_logLoop (lo hi : Int) (f : Int → List (Region × Int)) (a : Region × Int) :
    a ∈ logLoop lo hi f ↔ ∃ i, lo ≤ i ∧ i < hi ∧ a ∈ f i := by
  unfold logLoop
  by_cases hle : lo ≤ hi
  · have := forLoop_range
      (fun i (l : List (Region × Int)) => ∀ a, a ∈ l ↔ ∃ j, lo ≤ j ∧ j < i ∧ a ∈ f j)
      (fun i l => l ++ f i) lo hi [] hle
      (by
        intro i l hlo _ hl a
        rw [List.mem_append, hl a]
        constructor
        · rintro (⟨j, h1, h2, h3⟩ | h)
          · exact ⟨j, h1, by omega, h3⟩
          · exact ⟨i, hlo, by omega, h⟩
        · rintro ⟨j, h1, h2, h3⟩
          by_cases hj : j = i
          · right
            rw [← hj]
            exact h3
          · left
            exact ⟨j, h1, by omega, h3⟩)
      (by
        intro a
        constructor
        · intro h
          exact absurd h (List.not_mem_nil a)
        · rintro ⟨j, h1, h2, _⟩
          omega)
    exact this a
  · rw [forLoop_of_le _ _ _ _ (by omega)]
    constructor
    · intro h
      exact absurd h (List.not_mem_nil a)
    · rintro ⟨j, h1, h2, _⟩
      omega

/-- The accesses logged for the stage D loop entered at `i = 10*m`. -/
theorem mem_accessDLoop (hi : Int) (a : Region × Int) (n : Nat) :
    ∀ m : Int, (hi - 10 * m).toNat ≤ n → 0 ≤ m →
      (a ∈ accessDLoop hi (10 * m) ↔
        ∃ j, m ≤ j ∧ 10 * j < hi ∧ (a = (Region.samp, j) ∨ a = (Region.powerLawIn, 10 * j))) := by
  induction n with
  | zero =>
    intro m hn _
    rw [accessDLoop, if_neg (by omega)]
    constructor
    · intro h
      exact absurd h (List.not_mem_nil a)
    · rintro ⟨j, h1, h2, _⟩
      omega
  | succ n ih =>
    intro m hn hm
    rw [accessDLoop]
    by_cases hlt : 10 * m < hi
    · rw [if_pos hlt]
      have h10 : 10 * m + 10 = 10 * (m + 1) := by ring
      have hdiv : Int.tdiv (10 * m) 10 = m := Int.mul_tdiv_cancel_left m (by decide)
      rw [hdiv, h10, List.mem_append, ih (m + 1) (by omega) (by omega)]
      simp only [List.mem_cons, List.mem_nil_iff, or_false]
      constructor
      · rintro (h | ⟨j, h1, h2, h3⟩)
        · exact ⟨m, le_refl _, hlt, h⟩
        · exact ⟨j, by omega, h2, h3⟩
      · rintro ⟨j, h1, h2, h3⟩
        by_cases hj : j = m
        · left
          rw [← hj]
          exact h3
        · right
          exact ⟨j, by omega, h2, h3⟩
    · rw [if_neg hlt]
      constructor
      · intro h
        exact absurd h (List.not_mem_nil a)
      · rintro ⟨j, h1, h2, _⟩
        omega

/-- At the ratio `tdres*sampFreq = 1/10`: the up-sampling ratio is 10, the stage E bound `K`
satisfies `10*K ≤ M < 10*K + 10` and the decimated length `L` satisfies
`M ≤ 10*L < M + 10`, where `M = totalstim*nrep + 2*delay`. -/
theorem ten_to_one_facts (totalstim nrep delay : Int) (tdres sampFreq : α)
    (hrate : tdres * sampFreq = 1 / 10) :
    resamp tdres sampFreq = 10 ∧
    10 * stageEBound totalstim nrep delay tdres sampFreq ≤ totalstim * nrep + 2 * delay ∧
    totalstim * nrep + 2 * delay
      < 10 * stageEBound totalstim nrep delay tdres sampFreq + 10 ∧
    totalstim * nrep + 2 * delay ≤ 10 * len_samp totalstim nrep delay tdres sampFreq ∧
    10 * len_samp totalstim nrep delay tdres sampFreq < totalstim * nrep + 2 * delay + 10 := by
  unfold resamp stageEBound len_samp
  generalize totalstim * nrep + 2 * delay = M
  have hval : (M : α) * tdres * sampFreq = (M : α) / 10 := by
    rw [mul_assoc, hrate]
    ring
  rw [hval]
  have f1 : ((⌊(M : α) / 10⌋ : Int) : α) ≤ (M : α) / 10 := Int.floor_le _
  have f2 : (M : α) / 10 < ((⌊(M : α) / 10⌋ : Int) : α) + 1 := Int.lt_floor_add_one _
  have c1 : (M : α) / 10 ≤ ((⌈(M : α) / 10⌉ : Int) : α) := Int.le_ceil _
  have c2 : ((⌈(M : α) / 10⌉ : Int) : α) < (M : α) / 10 + 1 := Int.ceil_lt_add_one _
  refine ⟨?_, ?_, ?_, ?_, ?_⟩
  · rw [hrate, Int.ceil_eq_iff]
    norm_num
  · have h : ((10 * ⌊(M : α) / 10⌋ : Int) : α) ≤ ((M : Int) : α) := by
      push_cast
      linarith
    exact Int.cast_le.mp h
  · have h : ((M : Int) : α) < ((10 * ⌊(M : α) / 10⌋ + 10 : Int) : α) := by
      push_cast
      linarith
    exact Int.cast_lt.mp h
  · have h : ((M : Int) : α) ≤ ((10 * ⌈(M : α) / 10⌉ : Int) : α) := by
      push_cast
      linarith
    exact Int.cast_le.mp h
  · have h : ((10 * ⌈(M : α) / 10⌉ : Int) : α) < ((M + 10 : Int) : α) := by
      push_cast
      linarith
    exact Int.cast_lt.mp h

/-- C19. Index safety at the 10:1 rate ratio: for `N = totalstim*nrep ≥ 1`, `delay ≥ 0` and
`tdres*sampFreq = 1/10` (so `resamp = 10`), every buffer index logged for stages C-F is inside
the allocated length; in particular the largest `sampIHC` index `(N+2*delay-1) div 10` is
below the decimated length, the largest `TmpSyn` write index `(K-1)*10 - 1` and read index
`N - 1 + delay` are below `N + 2*delay`, and every stage E index is below
`K = floor((N+2*delay)/10)`, itself at most the decimated length. -/
theorem C19_index_safety_ten_to_one (totalstim nrep delay : Int) (tdres implnt sampFreq : α)
    (hN : 1 ≤ totalstim * nrep) (hd : 0 ≤ delay) (hrate : tdres * sampFreq = 1 / 10) :
    resamp tdres sampFreq = 10 ∧
    (∀ a ∈ accesses totalstim nrep delay tdres implnt sampFreq,
      inBounds (regionLen totalstim nrep delay tdres sampFreq) a) ∧
    (totalstim * nrep + 2 * delay - 1) / 10 < len_samp totalstim nrep delay tdres sampFreq ∧
    (stageEBound totalstim nrep delay tdres sampFreq - 1) * 10 - 1
      < len_TmpSyn (α := α) totalstim nrep delay ∧
    totalstim * nrep - 1 + delay < len_TmpSyn (α := α) totalstim nrep delay ∧
    (∀ a ∈ logLoop 0 (stageEBound totalstim nrep delay tdres sampFreq) (accessEBody implnt),
      0 ≤ a.2 ∧ a.2 < stageEBound totalstim nrep delay tdres sampFreq) ∧
    stageEBound totalstim nrep delay tdres sampFreq
      ≤ len_samp totalstim nrep delay tdres sampFreq := by
  obtain ⟨hres, hK1, hK2, hL1, hL2⟩ := ten_to_one_facts totalstim nrep delay tdres sampFreq hrate
  have hT : len_TmpSyn (α := α) totalstim nrep delay = totalstim * nrep + 2 * delay :=
    Int.ceil_intCast _
  have hPl : len_powerLawIn (α := α) totalstim nrep delay = totalstim * nrep + 3 * delay :=
    Int.ceil_intCast _
  have hEx : len_exponOut (α := α) totalstim nrep = totalstim * nrep := Int.ceil_intCast _
  have hE : ∀ a ∈ logLoop 0 (stageEBound totalstim nrep delay tdres sampFreq)
      (accessEBody implnt),
      a.1 = Region.samp ∧ 0 ≤ a.2 ∧ a.2 < stageEBound totalstim nrep delay tdres sampFreq := by
    intro a ha
    obtain ⟨k, hk0, hk1, hmem⟩ := (mem_logLoop _ _ _ a).mp ha
    unfold accessEBody at hmem
    rw [List.mem_append, List.mem_append] at hmem
    rcases hmem with (h | h) | h
    · rw [List.mem_singleton] at h
      rw [h]
      exact ⟨rfl, hk0, hk1⟩
    · split_ifs at h
      · obtain ⟨j, hj0, hj1, hj⟩ := (mem_logLoop _ _ _ a).mp h
        rw [List.mem_singleton] at hj
        rw [hj]
        exact ⟨rfl, hj0, by show j < _; omega⟩
      · exact absurd h (List.not_mem_nil a)
    · split_ifs at h with h1 h2 h3
      · simp only [List.mem_cons, List.mem_nil_iff, or_false] at h
        rcases h with h | h <;> rw [h] <;> exact ⟨rfl, by show (0 : Int) ≤ _; omega,
          by show _ < stageEBound totalstim nrep delay tdres sampFreq; omega⟩
      · simp only [List.mem_cons, List.mem_nil_iff, or_false] at h
        rcases h with h | h <;> rw [h] <;> exact ⟨rfl, by show (0 : Int) ≤ _; omega,
          by show _ < stageEBound totalstim nrep delay tdres sampFreq; omega⟩
      · simp only [List.mem_cons, List.mem_nil_iff, or_false] at h
        rcases h with h | h | h <;> rw [h] <;> exact ⟨rfl, by show (0 : Int) ≤ _; omega,
          by show _ < stageEBound totalstim nrep delay tdres sampFreq; omega⟩
      · exact absurd h (List.not_mem_nil a)
  refine ⟨hres, ?_, ?_, ?_, ?_, fun a ha => (hE a ha).2, by omega⟩
  · intro a ha
    unfold accesses at ha
    rw [List.mem_append, List.mem_append, List.mem_append] at ha
    rcases ha with ((ha | ha) | ha) | ha
    · unfold accessC at ha
      rw [List.mem_append, List.mem_append] at ha
      rcases ha with (ha | ha) | ha
      · obtain ⟨k, hk0, hk1, hmem⟩ := (mem_logLoop _ _ _ a).mp ha
        simp only [List.mem_cons, List.mem_nil_iff, or_false] at hmem
        rcases hmem with h | h <;> rw [h]
        · show 0 ≤ k ∧ k < len_powerLawIn (α := α) totalstim nrep delay
          rw [hPl]
          omega
        · show (0 : Int) ≤ 0 ∧ 0 < len_exponOut (α := α) totalstim nrep
          rw [hEx]
          omega
      · obtain ⟨k, hk0, hk1, hmem⟩ := (mem_logLoop _ _ _ a).mp ha
        simp only [List.mem_cons, List.mem_nil_iff, or_false] at hmem
        rcases hmem with h | h <;> rw [h]
        · show 0 ≤ k ∧ k < len_powerLawIn (α := α) totalstim nrep delay
          rw [hPl]
          omega
        · show 0 ≤ k - delay ∧ k - delay < len_exponOut (α := α) totalstim nrep
          rw [hEx]
          omega
      · obtain ⟨k, hk0, hk1, hmem⟩ := (mem_logLoop _ _ _ a).mp ha
        simp only [List.mem_cons, List.mem_nil_iff, or_false] at hmem
        rcases hmem with h | h <;> rw [h]
        · show 0 ≤ k ∧ k < len_powerLawIn (α := α) totalstim nrep delay
          rw [hPl]
          omega
        · show 0 ≤ k - 1 ∧ k - 1 < len_powerLawIn (α := α) totalstim nrep delay
          rw [hPl]
          omega
    · have h0 : (0 : Int) = 10 * 0 := by norm_num
      rw [h0] at ha
      obtain ⟨j, hj0, hj1, hmem⟩ :=
        (mem_accessDLoop _ a _ 0 (le_refl _) (le_refl _)).mp ha
      rcases hmem with h | h <;> rw [h]
      · show 0 ≤ j ∧ j < len_samp totalstim nrep delay tdres sampFreq
        omega
      · show 0 ≤ 10 * j ∧ 10 * j < len_powerLawIn (α := α) totalstim nrep delay
        rw [hPl]
        omega
    · obtain ⟨h1, h2, h3⟩ := hE a ha
      obtain ⟨r, j⟩ := a
      simp only at h1 h2 h3
      subst h1
      show 0 ≤ j ∧ j < len_samp totalstim nrep delay tdres sampFreq
      omega
    · unfold accessF at ha
      rw [List.mem_append, hres] at ha
      rcases ha with ha | ha
      · obtain ⟨z, hz0, hz1, hmem⟩ := (mem_logLoop _ _ _ a).mp ha
        have hzK : z + 1 < stageEBound totalstim nrep delay tdres sampFreq := by
          rcases max_cases (stageEBound totalstim nrep delay tdres sampFreq) 0 with h | h
          · rw [h.1] at hz1
            omega
          · rw [h.1] at hz1
            omega
        rw [List.mem_append] at hmem
        rcases hmem with hmem | hmem
        · simp only [List.mem_cons, List.mem_nil_iff, or_false] at hmem
          rcases hmem with h | h <;> rw [h]
          · show 0 ≤ z + 1 ∧ z + 1 < len_samp totalstim nrep delay tdres sampFreq
            omega
          · show 0 ≤ z ∧ z < len_samp totalstim nrep delay tdres sampFreq
            omega
        · obtain ⟨b, hb0, hb1, hb⟩ := (mem_logLoop _ _ _ a).mp hmem
          rw [List.mem_singleton] at hb
          rw [hb]
          show 0 ≤ z * 10 + b ∧ z * 10 + b < len_TmpSyn (α := α) totalstim nrep delay
          rw [hT]
          omega
      · obtain ⟨i, hi0, hi1, hmem⟩ := (mem_logLoop _ _ _ a).mp ha
        rw [List.mem_singleton] at hmem
        rw [hmem]
        show 0 ≤ i + delay ∧ i + delay < len_TmpSyn (α := α) totalstim nrep delay
        rw [hT]
        omega
  · omega
  · rw [hT]
    omega
  · rw [hT]
    omega

/-- Witness for C19: `N = 1000`, `delay = 7500`, `tdres = 1e-5`, `sampFreq = 10000`; the
up-sampling ratio is 10, the largest `sampIHC` index is inside the decimated buffers, and the
stage D access `sampIHC[1599]` is in bounds. -/
theorem C19_index_safety_ten_to_one_witness :
    resamp (1 / 100000 : ℚ) 10000 = 10 ∧
    (1000 * 1 + 2 * 7500 - 1) / 10 < len_samp 1000 1 7500 (1 / 100000 : ℚ) 10000 ∧
    inBounds (regionLen 1000 1 7500 (1 / 100000 : ℚ) 10000) (Region.samp, 1599) :=
  have h := C19_index_safety_ten_to_one 1000 1 7500 (1 / 100000 : ℚ) 0 10000 (by decide)
    (by decide) (by norm_num)
  have hmem : (Region.samp, (1599 : Int)) ∈ accesses 1000 1 7500 (1 / 100000 : ℚ) 0 10000 := by
    unfold accesses
    rw [List.mem_append, List.mem_append, List.mem_append]
    left
    left
    right
    have h0 : (0 : Int) = 10 * 0 := by decide
    rw [h0]
    exact (mem_accessDLoop _ _ _ 0 (le_refl _) (le_refl _)).mpr
      ⟨1599, by decide, by decide, Or.inl rfl⟩
  ⟨h.1, h.2.2.1, h.2.1 _ hmem⟩

/-- C13 fails on the code.  With `cf = 1000` (delay 7500), `N = 1000`, `tdres = 1e-5`:
at `sampFreq = 5000` the decimated buffers have 800 cells while the stage D loop stores at
`sampIHC[1599]`; at `sampFreq = 30000` (`resamp = 4`, `K = 4800`) `TmpSyn` has 16000 cells
while the up-sampling loop stores at `TmpSyn[19195]`. -/
theorem C13_buffer_overflow :
    delaypoint (1000 : ℚ) = 7500 ∧
    regionLen 1000 1 7500 (1 / 100000 : ℚ) 5000 Region.samp = 800 ∧
    (Region.samp, 1599) ∈ accesses 1000 1 7500 (1 / 100000 : ℚ) 1 5000 ∧
    ¬ inBounds (regionLen 1000 1 7500 (1 / 100000 : ℚ) 5000) (Region.samp, 1599) ∧
    resamp (1 / 100000 : ℚ) 30000 = 4 ∧
    stageEBound 1000 1 7500 (1 / 100000 : ℚ) 30000 = 4800 ∧
    regionLen 1000 1 7500 (1 / 100000 : ℚ) 30000 Region.TmpSyn = 16000 ∧
    (Region.TmpSyn, 19195) ∈ accesses 1000 1 7500 (1 / 100000 : ℚ) 1 30000 ∧
    ¬ inBounds (regionLen 1000 1 7500 (1 / 100000 : ℚ) 30000) (Region.TmpSyn, 19195) := by
  have hdel : delaypoint (1000 : ℚ) = 7500 := by
    unfold delaypoint
    rw [Int.floor_eq_iff]
    norm_num
  have hlen : regionLen 1000 1 7500 (1 / 100000 : ℚ) 5000 Region.samp = 800 := by
    show len_samp 1000 1 7500 (1 / 100000 : ℚ) 5000 = 800
    unfold len_samp
    rw [Int.ceil_eq_iff]
    norm_num
  have hres : resamp (1 / 100000 : ℚ) 30000 = 4 := by
    unfold resamp
    rw [Int.ceil_eq_iff]
    norm_num
  have hK : stageEBound 1000 1 7500 (1 / 100000 : ℚ) 30000 = 4800 := by
    unfold stageEBound
    rw [Int.floor_eq_iff]
    norm_num
  have hT : regionLen 1000 1 7500 (1 / 100000 : ℚ) 30000 Region.TmpSyn = 16000 := by
    show len_TmpSyn (α := ℚ) 1000 1 7500 = 16000
    unfold len_TmpSyn
    rw [Int.ceil_intCast]
    decide
  refine ⟨hdel, hlen, ?_, ?_, hres, hK, hT, ?_, ?_⟩
  · unfold accesses
    rw [List.mem_append, List.mem_append, List.mem_append]
    left
    left
    right
    have h0 : (0 : Int) = 10 * 0 := by decide
    rw [h0]
    exact (mem_accessDLoop _ _ _ 0 (le_refl _) (le_refl _)).mpr
      ⟨1599, by decide, by decide, Or.inl rfl⟩
  · unfold inBounds
    rw [hlen]
    decide
  · unfold accesses
    rw [List.mem_append, List.mem_append, List.mem_append, hres, hK]
    right
    unfold accessF
    rw [List.mem_append]
    left
    refine (mem_logLoop _ _ _ _).mpr ⟨4798, by decide, by decide, ?_⟩
    rw [List.mem_append]
    right
    exact (mem_logLoop _ _ _ _).mpr ⟨3, by decide, by decide, List.mem_singleton.mpr rfl⟩
  · unfold inBounds
    rw [hT]
    decide

/-- When every logged access is inside its buffer, the routine on the allocated heap gives the
result of `Synapse`. -/
theorem SynapseChecked_of_inBounds (lm : Libm α) (ind : Indet α) (ihcout randNums : Int → α)
    (tdres cf : α) (totalstim nrep : Int) (spont implnt sampFreq : α) (synouttmp : Int → α)
    (h : ∀ a ∈ accesses totalstim nrep (delaypoint cf) tdres implnt sampFreq,
      inBounds (regionLen totalstim nrep (delaypoint cf) tdres sampFreq) a) :
    SynapseChecked lm ind ihcout randNums tdres cf totalstim nrep spont implnt sampFreq
        synouttmp
      = some (Synapse lm ind ihcout randNums tdres cf totalstim nrep spont implnt sampFreq
          synouttmp) := by
  unfold SynapseChecked
  exact if_pos h

/-- C1 fails on the code.  In the call `tdres = 1e-5`, `cf = 1000` (delay 7500),
`totalstim = 1000`, `nrep = 1`, `spont = 100`, `implnt = 1`, `sampFreq = 5000` the stage D loop
stores at `sampIHC[1599]` while the buffer has 800 cells, so on the heap as allocated the
routine has no result: no `N` samples are written and no `N` is returned, whatever `ihcout`,
the noise, the libm functions and the output buffer are. -/
theorem C1_call_overflows (lm : Libm ℚ) (ind : Indet ℚ) (ihcout randNums synouttmp : Int → ℚ) :
    SynapseChecked lm ind ihcout randNums (1 / 100000) 1000 1000 1 100 1 5000 synouttmp
      = none := by
  have hdel : delaypoint (1000 : ℚ) = 7500 := by
    unfold delaypoint
    rw [Int.floor_eq_iff]
    norm_num
  have hlen : regionLen 1000 1 7500 (1 / 100000 : ℚ) 5000 Region.samp = 800 := by
    show len_samp 1000 1 7500 (1 / 100000 : ℚ) 5000 = 800
    unfold len_samp
    rw [Int.ceil_eq_iff]
    norm_num
  have hmem : (Region.samp, (1599 : Int)) ∈ accesses 1000 1 7500 (1 / 100000 : ℚ) 1 5000 := by
    unfold accesses
    rw [List.mem_append, List.mem_append, List.mem_append]
    left
    left
    right
    have h0 : (0 : Int) = 10 * 0 := by decide
    rw [h0]
    exact (mem_accessDLoop _ _ _ 0 (le_refl _) (le_refl _)).mpr
      ⟨1599, by decide, by decide, Or.inl rfl⟩
  unfold SynapseChecked
  rw [hdel, if_neg]
  intro hall
  have h := (hall (Region.samp, 1599) hmem).2
  rw [hlen] at h
  exact absurd h (by decide)

/-- C2 fails on the code.  In the call `tdres = 1e-5`, `cf = 1000` (delay 7500),
`totalstim = 1000`, `nrep = 1`, `spont = 100`, `implnt = 1`, `sampFreq = 30000` (a valid
input: `tdres*sampFreq = 3/10 > 0`, `resamp = 4`) the up-sampling loop stores at
`TmpSyn[19195]` while the buffer has 16000 cells, so on the heap as allocated the routine
delivers no output samples, non-negative or not, whatever `ihcout`, the noise, the libm
functions and the output buffer are. -/
theorem C2_call_overflows (lm : Libm ℚ) (ind : Indet ℚ) (ihcout randNums synouttmp : Int → ℚ) :
    (0 : ℚ) < 1 / 100000 * 30000 ∧ 1 ≤ resamp (1 / 100000 : ℚ) 30000 ∧
    SynapseChecked lm ind ihcout randNums (1 / 100000) 1000 1000 1 100 1 30000 synouttmp
      = none := by
  have hdel : delaypoint (1000 : ℚ) = 7500 := by
    unfold delaypoint
    rw [Int.floor_eq_iff]
    norm_num
  have hres : resamp (1 / 100000 : ℚ) 30000 = 4 := by
    unfold resamp
    rw [Int.ceil_eq_iff]
    norm_num
  have hK : stageEBound 1000 1 7500 (1 / 100000 : ℚ) 30000 = 4800 := by
    unfold stageEBound
    rw [Int.floor_eq_iff]
    norm_num
  have hT : regionLen 1000 1 7500 (1 / 100000 : ℚ) 30000 Region.TmpSyn = 16000 := by
    show len_TmpSyn (α := ℚ) 1000 1 7500 = 16000
    unfold len_TmpSyn
    rw [Int.ceil_intCast]
    decide
  have hmem : (Region.TmpSyn, (19195 : Int))
      ∈ accesses 1000 1 7500 (1 / 100000 : ℚ) 1 30000 := by
    unfold accesses
    rw [List.mem_append, List.mem_append, List.mem_append, hres, hK]
    right
    unfold accessF
    rw [List.mem_append]
    left
    refine (mem_logLoop _ _ _ _).mpr ⟨4798, by decide, by decide, ?_⟩
    rw [List.mem_append]
    right
    exact (mem_logLoop _ _ _ _).mpr ⟨3, by decide, by decide, List.mem_singleton.mpr rfl⟩
  refine ⟨by norm_num, by rw [hres]; decide, ?_⟩
  unfold SynapseChecked
  rw [hdel, if_neg]
  intro hall
  have h := (hall (Region.TmpSyn, 19195) hmem).2
  rw [hT] at h
  exact absurd h (by decide)

end PyZBC2014
